import Mathlib

/-!
Shallow embedding of the zkChat relay server (`src/server.js`) and proofs of
the specification's claims about it.

JavaScript `Map` objects are modelled as association lists with the insertion
order JS maintains: `mapSet` updates an existing key in place and appends a
fresh key at the end; `mapDelete` removes a key; iteration (the sweepers)
walks the list in order.  Timestamps (`Date.now()`) are natural numbers of
milliseconds; `new Date(x).getTime()` may be `NaN`, modelled by `JsTime`.
-/

/-- Association-list model of a JS `Map`: `get`. -/
def mapGet {β : Type} (m : List (String × β)) (k : String) : Option β :=
  match m with
  | [] => none
  | (k', v) :: rest => if k' = k then some v else mapGet rest k

/-- Association-list model of a JS `Map`: `set` (update in place, else append). -/
def mapSet {β : Type} (m : List (String × β)) (k : String) (v : β) :
    List (String × β) :=
  match m with
  | [] => [(k, v)]
  | (k', v') :: rest =>
      if k' = k then (k, v) :: rest else (k', v') :: mapSet rest k v

/-- Association-list model of a JS `Map`: `delete`. -/
def mapDelete {β : Type} (m : List (String × β)) (k : String) :
    List (String × β) :=
  m.filter (fun p => !(p.1 = k : Bool))

/-- Keys of a map, in order. -/
def mapKeys {β : Type} (m : List (String × β)) : List String :=
  m.map Prod.fst

/-- A well-formed map has no duplicate keys (true for all JS `Map`s). -/
def WFKeys {β : Type} (m : List (String × β)) : Prop :=
  (mapKeys m).Nodup

theorem mapGet_nil {β : Type} (k : String) :
    mapGet ([] : List (String × β)) k = none := rfl

theorem mapGet_cons {β : Type} (k' : String) (v' : β) (rest : List (String × β))
    (k : String) :
    mapGet ((k', v') :: rest) k =
      if k' = k then some v' else mapGet rest k := rfl

theorem mapSet_nil {β : Type} (k : String) (v : β) :
    mapSet ([] : List (String × β)) k v = [(k, v)] := rfl

theorem mapSet_cons {β : Type} (k' : String) (v' : β) (rest : List (String × β))
    (k : String) (v : β) :
    mapSet ((k', v') :: rest) k v =
      if k' = k then (k, v) :: rest else (k', v') :: mapSet rest k v := rfl

theorem mapDelete_cons {β : Type} (k' : String) (v' : β)
    (rest : List (String × β)) (k : String) :
    mapDelete ((k', v') :: rest) k =
      if k' = k then mapDelete rest k else (k', v') :: mapDelete rest k := by
  by_cases h : k' = k <;> simp [mapDelete, List.filter_cons, h]

theorem mapGet_set_self {β : Type} (m : List (String × β)) (k : String) (v : β) :
    mapGet (mapSet m k v) k = some v := by
  induction m with
  | nil => rw [mapSet_nil, mapGet_cons, if_pos rfl]
  | cons p rest ih =>
      obtain ⟨k', v'⟩ := p
      rw [mapSet_cons]
      by_cases h : k' = k
      · rw [if_pos h, mapGet_cons, if_pos rfl]
      · rw [if_neg h, mapGet_cons, if_neg h, ih]

theorem mapGet_set_ne {β : Type} (m : List (String × β)) (k k' : String) (v : β)
    (h : k' ≠ k) : mapGet (mapSet m k v) k' = mapGet m k' := by
  have hne : ¬ k = k' := fun hk => h hk.symm
  induction m with
  | nil => rw [mapSet_nil, mapGet_cons, if_neg hne]
  | cons p rest ih =>
      obtain ⟨k₀, v₀⟩ := p
      rw [mapSet_cons]
      by_cases hk : k₀ = k
      · rw [if_pos hk, mapGet_cons, if_neg hne, mapGet_cons,
          if_neg (hk ▸ hne)]
      · rw [if_neg hk, mapGet_cons, mapGet_cons]
        by_cases hk' : k₀ = k'
        · rw [if_pos hk', if_pos hk']
        · rw [if_neg hk', if_neg hk', ih]

theorem mapGet_delete_self {β : Type} (m : List (String × β)) (k : String) :
    mapGet (mapDelete m k) k = none := by
  induction m with
  | nil => rfl
  | cons p rest ih =>
      obtain ⟨k', v'⟩ := p
      rw [mapDelete_cons]
      by_cases h : k' = k
      · rw [if_pos h]; exact ih
      · rw [if_neg h, mapGet_cons, if_neg h]; exact ih

theorem mapGet_delete_ne {β : Type} (m : List (String × β)) (k k' : String)
    (h : k' ≠ k) : mapGet (mapDelete m k) k' = mapGet m k' := by
  induction m with
  | nil => rfl
  | cons p rest ih =>
      obtain ⟨k₀, v₀⟩ := p
      rw [mapDelete_cons]
      by_cases hk : k₀ = k
      · rw [if_pos hk, mapGet_cons, if_neg (fun hc => h (hc.symm.trans hk)), ih]
      · rw [if_neg hk, mapGet_cons, mapGet_cons]
        by_cases hk' : k₀ = k'
        · rw [if_pos hk', if_pos hk']
        · rw [if_neg hk', if_neg hk', ih]

/-- A filter can only remove entries: absence is preserved. -/
theorem mapGet_filter_none {β : Type} (m : List (String × β)) (k : String)
    (p : String × β → Bool) (h : mapGet m k = none) :
    mapGet (m.filter p) k = none := by
  induction m with
  | nil => simp [mapGet]
  | cons q rest ih =>
      obtain ⟨k', v'⟩ := q
      rw [mapGet_cons] at h
      by_cases hk : k' = k
      · rw [if_pos hk] at h; exact absurd h (by simp)
      · rw [if_neg hk] at h
        rw [List.filter_cons]
        by_cases hp : p (k', v') = true
        · rw [if_pos hp, mapGet_cons, if_neg hk]; exact ih h
        · rw [if_neg hp]; exact ih h

/-- If the first entry for a key survives a filter, lookup still finds it. -/
theorem mapGet_filter_kept {β : Type} (m : List (String × β)) (k : String)
    (v : β) (p : String × β → Bool) (h : mapGet m k = some v)
    (hp : p (k, v) = true) : mapGet (m.filter p) k = some v := by
  induction m with
  | nil => simp [mapGet] at h
  | cons q rest ih =>
      obtain ⟨k', v'⟩ := q
      rw [mapGet_cons] at h
      by_cases hk : k' = k
      · rw [if_pos hk] at h
        have hv : v' = v := Option.some.inj h
        subst hv; subst hk
        rw [List.filter_cons, if_pos hp, mapGet_cons, if_pos rfl]
      · rw [if_neg hk] at h
        rw [List.filter_cons]
        by_cases hq : p (k', v') = true
        · rw [if_pos hq, mapGet_cons, if_neg hk]; exact ih h
        · rw [if_neg hq]; exact ih h

/-- A key absent from the key list is absent from the map. -/
theorem mapGet_eq_none_of_not_mem_keys {β : Type} (m : List (String × β))
    (k : String) (h : k ∉ mapKeys m) : mapGet m k = none := by
  induction m with
  | nil => rfl
  | cons q rest ih =>
      obtain ⟨k', v'⟩ := q
      simp only [mapKeys, List.map_cons, List.mem_cons] at h
      push_neg at h
      rw [mapGet_cons, if_neg (fun hc => h.1 hc.symm)]
      exact ih h.2

/-- With unique keys, removing the first entry for a key by a filter removes
    the key entirely. -/
theorem mapGet_filter_dropped {β : Type} (m : List (String × β)) (k : String)
    (v : β) (p : String × β → Bool) (hwf : WFKeys m)
    (h : mapGet m k = some v) (hp : p (k, v) = false) :
    mapGet (m.filter p) k = none := by
  induction m with
  | nil => simp [mapGet] at h
  | cons q rest ih =>
      obtain ⟨k', v'⟩ := q
      have hwf' : WFKeys rest := (List.nodup_cons.mp hwf).2
      rw [mapGet_cons] at h
      by_cases hk : k' = k
      · rw [if_pos hk] at h
        have hv : v' = v := Option.some.inj h
        subst hv; subst hk
        have habs : k' ∉ mapKeys rest := by
          have := (List.nodup_cons.mp hwf).1
          simpa [mapKeys] using this
        have hnone : mapGet rest k' = none :=
          mapGet_eq_none_of_not_mem_keys rest k' habs
        rw [List.filter_cons, if_neg (by simp [hp])]
        exact mapGet_filter_none rest k' p hnone
      · rw [if_neg hk] at h
        rw [List.filter_cons]
        by_cases hq : p (k', v') = true
        · rw [if_pos hq, mapGet_cons, if_neg hk]; exact ih hwf' h
        · rw [if_neg hq]; exact ih hwf' h

/-- Keys of `mapSet`: membership only grows by `k`. -/
theorem mem_keys_set {β : Type} (m : List (String × β)) (k k' : String) (v : β)
    (h : k' ∈ mapKeys (mapSet m k v)) : k' ∈ mapKeys m ∨ k' = k := by
  induction m with
  | nil =>
      rw [mapSet_nil] at h
      simp only [mapKeys, List.map_cons, List.map_nil, List.mem_singleton] at h
      exact Or.inr h
  | cons q rest ih =>
      obtain ⟨k₀, v₀⟩ := q
      rw [mapSet_cons] at h
      by_cases hk : k₀ = k
      · rw [if_pos hk] at h
        simp only [mapKeys, List.map_cons, List.mem_cons] at h ⊢
        exact h.elim (fun h1 => Or.inr h1) (fun h2 => Or.inl (Or.inr h2))
      · rw [if_neg hk] at h
        simp only [mapKeys, List.map_cons, List.mem_cons] at h ⊢
        exact h.elim (fun h1 => Or.inl (Or.inl h1))
          (fun h2 => (ih h2).elim (fun h3 => Or.inl (Or.inr h3)) Or.inr)

theorem wfKeys_set {β : Type} (m : List (String × β)) (k : String) (v : β)
    (h : WFKeys m) : WFKeys (mapSet m k v) := by
  induction m with
  | nil => simp [WFKeys, mapKeys, mapSet]
  | cons p rest ih =>
      obtain ⟨k', v'⟩ := p
      obtain ⟨hnot, hrest⟩ := List.nodup_cons.mp h
      rw [mapSet_cons]
      by_cases hk : k' = k
      · rw [if_pos hk]
        subst hk
        exact List.nodup_cons.mpr ⟨hnot, hrest⟩
      · rw [if_neg hk]
        refine List.nodup_cons.mpr ⟨?_, ih hrest⟩
        intro hmem
        rcases mem_keys_set rest k k' v (by simpa [mapKeys] using hmem) with
          h1 | h2
        · exact hnot (by simpa [mapKeys] using h1)
        · exact hk h2

theorem wfKeys_filter {β : Type} (m : List (String × β))
    (p : String × β → Bool) (h : WFKeys m) : WFKeys (m.filter p) :=
  List.Nodup.sublist (List.Sublist.map Prod.fst (List.filter_sublist m)) h

theorem wfKeys_delete {β : Type} (m : List (String × β)) (k : String)
    (h : WFKeys m) : WFKeys (mapDelete m k) :=
  wfKeys_filter m _ h

/- ============================================================
   One-time message store (`otmStore`, server.js §3 and the
   GET/POST /otm handlers).
============================================================ -/

/-- TTL constant `OTM_TTL_MS = 7 * 24 * 60 * 60 * 1000` (server.js line 139). -/
def OTM_TTL_MS : Nat := 7 * 24 * 60 * 60 * 1000

structure OtmEntry where
  ciphertext : String
  createdAt : Nat
deriving DecidableEq, Repr

abbrev OtmStore := List (String × OtmEntry)

def otmEmpty : OtmStore := []

/-- Result of `GET /otm/{id}` once it reaches the store: `gone` is the
    404 `{used:true}` response, `ok c` the 200 `{ciphertext:c}` response. -/
inductive TakeResult where
  | gone
  | ok (ciphertext : String)
deriving DecidableEq, Repr

/-- The store part of the `GET /otm/{id}` handler (server.js lines 436-455):
    missing id → gone; expired → delete and gone; otherwise delete and
    return the ciphertext. -/
def otmTake (s : OtmStore) (id : String) (now : Nat) : TakeResult × OtmStore :=
  match mapGet s id with
  | none => (.gone, s)
  | some e =>
      if now - e.createdAt > OTM_TTL_MS then (.gone, mapDelete s id)
      else (.ok e.ciphertext, mapDelete s id)

/-- The store part of the `POST /otm` handler (server.js lines 407-408):
    `otmStore.set(id, { ciphertext, createdAt: Date.now() })`. -/
def otmPut (s : OtmStore) (id ciphertext : String) (now : Nat) : OtmStore :=
  mapSet s id ⟨ciphertext, now⟩

/-- The OTM sweeper (server.js lines 145-152): delete entries whose age
    exceeds the TTL. -/
def otmSweep (s : OtmStore) (now : Nat) : OtmStore :=
  s.filter (fun p => !(now - p.2.createdAt > OTM_TTL_MS : Bool))

/-- The operations that touch `otmStore`. -/
inductive OtmOp where
  | put (id ciphertext : String) (now : Nat)
  | take (id : String) (now : Nat)
  | sweep (now : Nat)
deriving DecidableEq, Repr

def otmStep (s : OtmStore) : OtmOp → OtmStore
  | .put id c now => otmPut s id c now
  | .take id now => (otmTake s id now).2
  | .sweep now => otmSweep s now

def runOtm (s : OtmStore) (ops : List OtmOp) : OtmStore :=
  ops.foldl otmStep s

/-- Does this operation store an entry under `id`? -/
def isPutOf (op : OtmOp) (id : String) : Bool :=
  match op with
  | .put id' _ _ => id' = id
  | _ => false

/-- Number of `put` operations for `id` in a trace.  `generateOtmId` draws
    128 random bits, so in any real trace this is at most 1 per id. -/
def putCount (ops : List OtmOp) (id : String) : Nat :=
  ops.countP (fun op => isPutOf op id)

/-- Number of takes of `id` in a trace (run from `s`) that return the
    ciphertext, i.e. the number of 200 responses observed for `id`. -/
def otmTakeOks (s : OtmStore) (ops : List OtmOp) (id : String) : Nat :=
  match ops with
  | [] => 0
  | op :: rest =>
      (match op with
       | .take id' now =>
           if id' = id then
             (match (otmTake s id' now).1 with
              | .ok _ => 1
              | .gone => 0)
           else 0
       | _ => 0) + otmTakeOks (otmStep s op) rest id

theorem otmTake_of_none (s : OtmStore) (id : String) (now : Nat)
    (h : mapGet s id = none) : otmTake s id now = (.gone, s) := by
  unfold otmTake; rw [h]

theorem otmTake_of_some (s : OtmStore) (id : String) (now : Nat) (e : OtmEntry)
    (h : mapGet s id = some e) :
    otmTake s id now =
      if now - e.createdAt > OTM_TTL_MS then (.gone, mapDelete s id)
      else (.ok e.ciphertext, mapDelete s id) := by
  unfold otmTake; rw [h]

/-- A successful take found the entry and removed it. -/
theorem otmTake_ok_delete (s : OtmStore) (id : String) (now : Nat) (c : String)
    (h : (otmTake s id now).1 = .ok c) :
    (mapGet s id).isSome = true ∧ (otmTake s id now).2 = mapDelete s id := by
  cases hm : mapGet s id with
  | none => rw [otmTake_of_none s id now hm] at h; exact absurd h (by simp)
  | some e =>
      rw [otmTake_of_some s id now e hm] at h ⊢
      by_cases hexp : now - e.createdAt > OTM_TTL_MS
      · rw [if_pos hexp] at h; exact absurd h (by simp)
      · rw [if_neg hexp]; exact ⟨by simp [hm], rfl⟩

/-- No step other than a `put` of `id` can (re)create an entry for `id`. -/
theorem otmStep_absent (s : OtmStore) (op : OtmOp) (id : String)
    (habs : mapGet s id = none) (hput : isPutOf op id = false) :
    mapGet (otmStep s op) id = none := by
  cases op with
  | put id' c t =>
      have hne : id' ≠ id := by
        simpa [isPutOf] using hput
      simpa [otmStep, otmPut] using
        (mapGet_set_ne s id' id (⟨c, t⟩ : OtmEntry) (fun hc => hne hc.symm)).trans habs
  | take id' t =>
      cases hm : mapGet s id' with
      | none => simpa [otmStep, otmTake_of_none s id' t hm] using habs
      | some e =>
          by_cases hid : id' = id
          · subst hid; rw [hm] at habs; exact absurd habs (by simp)
          · have hdel : mapGet (mapDelete s id') id = mapGet s id :=
              mapGet_delete_ne s id' id (fun hc => hid hc.symm)
            have hstep : otmStep s (.take id' t) = (otmTake s id' t).2 := rfl
            rw [hstep, otmTake_of_some s id' t e hm]
            by_cases hexp : t - e.createdAt > OTM_TTL_MS
            · rw [if_pos hexp]; exact hdel.trans habs
            · rw [if_neg hexp]; exact hdel.trans habs
  | sweep t => exact mapGet_filter_none s id _ habs

theorem runOtm_absent (s : OtmStore) (ops : List OtmOp) (id : String)
    (habs : mapGet s id = none) (hput : ∀ op ∈ ops, isPutOf op id = false) :
    mapGet (runOtm s ops) id = none := by
  induction ops generalizing s with
  | nil => simpa [runOtm] using habs
  | cons op rest ih =>
      have h1 : mapGet (otmStep s op) id = none :=
        otmStep_absent s op id habs (hput op (List.mem_cons_self op rest))
      simpa [runOtm] using
        ih (otmStep s op) h1 (fun o ho => hput o (List.mem_cons_of_mem op ho))

/-- One if the store currently holds an entry for `id`, else zero. -/
def pres (s : OtmStore) (id : String) : Nat :=
  if (mapGet s id).isSome then 1 else 0

theorem pres_le_one (s : OtmStore) (id : String) : pres s id ≤ 1 := by
  unfold pres; split <;> omega

theorem pres_of_none (s : OtmStore) (id : String) (h : mapGet s id = none) :
    pres s id = 0 := by
  simp [pres, h]

theorem pres_of_some (s : OtmStore) (id : String) (e : OtmEntry)
    (h : mapGet s id = some e) : pres s id = 1 := by
  simp [pres, h]

/-- Presence of `id` never appears out of thin air under a non-`put` step. -/
theorem otmStep_pres_le (s : OtmStore) (op : OtmOp) (id : String)
    (hput : isPutOf op id = false) :
    pres (otmStep s op) id ≤ pres s id := by
  cases hm : mapGet s id with
  | some e =>
      rw [pres_of_some s id e hm]
      exact pres_le_one _ _
  | none =>
      rw [pres_of_none s id hm,
        pres_of_none _ id (otmStep_absent s op id hm hput)]

/-- Core counting invariant: successful takes of `id` are bounded by the puts
    of `id` plus one if `id` is initially present. -/
theorem otmTakeOks_le (s : OtmStore) (ops : List OtmOp) (id : String) :
    otmTakeOks s ops id ≤ putCount ops id + pres s id := by
  induction ops generalizing s with
  | nil => simp [otmTakeOks, putCount]
  | cons op rest ih =>
      cases op with
      | put id' c t =>
          have hoks : otmTakeOks s (.put id' c t :: rest) id =
              otmTakeOks (otmPut s id' c t) rest id := by
            simp [otmTakeOks, otmStep]
          have hle := ih (otmPut s id' c t)
          by_cases hid : id' = id
          · have hcount : putCount (OtmOp.put id' c t :: rest) id =
                putCount rest id + 1 := by
              simp [putCount, List.countP_cons, isPutOf, hid]
            have hpres : pres (otmPut s id' c t) id ≤ 1 := pres_le_one _ _
            rw [hoks, hcount]
            omega
          · have hcount : putCount (OtmOp.put id' c t :: rest) id =
                putCount rest id := by
              simp [putCount, List.countP_cons, isPutOf, hid]
            have hpres : pres (otmPut s id' c t) id = pres s id := by
              unfold pres otmPut
              rw [mapGet_set_ne s id' id _ (fun hc => hid hc.symm)]
            rw [hoks, hcount]
            omega
      | take id' t =>
          have hcount : putCount (OtmOp.take id' t :: rest) id =
              putCount rest id := by
            simp [putCount, List.countP_cons, isPutOf]
          by_cases hid : id' = id
          · subst hid
            cases hm : mapGet s id' with
            | none =>
                have hoks : otmTakeOks s (.take id' t :: rest) id' =
                    otmTakeOks s rest id' := by
                  simp [otmTakeOks, otmStep, otmTake_of_none s id' t hm]
                have hle := ih s
                rw [hoks, hcount]
                omega
            | some e =>
                have hps : pres s id' = 1 := pres_of_some s id' e hm
                have hle := ih (mapDelete s id')
                have hpd : pres (mapDelete s id') id' = 0 :=
                  pres_of_none _ _ (mapGet_delete_self s id')
                by_cases hexp : t - e.createdAt > OTM_TTL_MS
                · have hoks : otmTakeOks s (.take id' t :: rest) id' =
                      otmTakeOks (mapDelete s id') rest id' := by
                    simp [otmTakeOks, otmStep,
                      otmTake_of_some s id' t e hm, hexp]
                  rw [hoks, hcount, hps]
                  omega
                · have hoks : otmTakeOks s (.take id' t :: rest) id' =
                      1 + otmTakeOks (mapDelete s id') rest id' := by
                    simp [otmTakeOks, otmStep,
                      otmTake_of_some s id' t e hm, hexp]
                  rw [hoks, hcount, hps]
                  omega
          · have hoks : otmTakeOks s (.take id' t :: rest) id =
                otmTakeOks (otmStep s (.take id' t)) rest id := by
              simp [otmTakeOks, hid]
            have hle := ih (otmStep s (.take id' t))
            have hpres : pres (otmStep s (.take id' t)) id ≤ pres s id :=
              otmStep_pres_le s (.take id' t) id (by simp [isPutOf])
            rw [hoks, hcount]
            omega
      | sweep t =>
          have hcount : putCount (OtmOp.sweep t :: rest) id =
              putCount rest id := by
            simp [putCount, List.countP_cons, isPutOf]
          have hoks : otmTakeOks s (.sweep t :: rest) id =
              otmTakeOks (otmSweep s t) rest id := by
            simp [otmTakeOks, otmStep]
          have hle := ih (otmSweep s t)
          have hpres : pres (otmStep s (.sweep t)) id ≤ pres s id :=
            otmStep_pres_le s (.sweep t) id (by simp [isPutOf])
          have hstep : otmStep s (.sweep t) = otmSweep s t := rfl
          rw [hstep] at hpres
          rw [hoks, hcount]
          omega

/-- C1: `GET /otm/{id}` is an atomic compare-and-delete.  A take that returns
    the ciphertext removes the entry; afterwards every take of the same id
    returns the 404 `{used:true}` answer, across any further operations that
    do not store a fresh entry under the same id; and in any trace from the
    empty store in which each id is stored at most once (`generateOtmId` is
    128-bit random), at most one take of any id observes a 200 response. -/
theorem otm_take_at_most_once
    (s : OtmStore) (id : String) (now : Nat) (c : String)
    (h : (otmTake s id now).1 = .ok c) :
    mapGet (otmTake s id now).2 id = none
    ∧ (∀ ops : List OtmOp, (∀ op ∈ ops, isPutOf op id = false) →
        ∀ now2 : Nat,
          (otmTake (runOtm (otmTake s id now).2 ops) id now2).1 = .gone)
    ∧ (∀ ops : List OtmOp, ∀ id2 : String, putCount ops id2 ≤ 1 →
        otmTakeOks otmEmpty ops id2 ≤ 1) := by
  obtain ⟨hpres, hdel⟩ := otmTake_ok_delete s id now c h
  have habs : mapGet (otmTake s id now).2 id = none := by
    rw [hdel]; exact mapGet_delete_self s id
  refine ⟨habs, ?_, ?_⟩
  · intro ops hops now2
    have := runOtm_absent (otmTake s id now).2 ops id habs hops
    rw [otmTake_of_none _ id now2 this]
  · intro ops id2 hput
    have h0 := otmTakeOks_le otmEmpty ops id2
    have hp0 : pres otmEmpty id2 = 0 := pres_of_none _ _ rfl
    omega

/-- Concrete run of C1: a stored ciphertext is returned exactly once; a
    second take, even after further takes and a sweep, observes `gone`. -/
theorem otm_take_at_most_once_witness :
    (otmTake [("aa", ⟨"A", 0⟩)] "aa" 5).1 = .ok "A"
    ∧ mapGet (otmTake [("aa", ⟨"A", 0⟩)] "aa" 5).2 "aa" = none
    ∧ (otmTake (runOtm (otmTake [("aa", ⟨"A", 0⟩)] "aa" 5).2
        [.take "aa" 6, .sweep 7, .put "bb" "B" 8] ) "aa" 9).1 = .gone
    ∧ otmTakeOks otmEmpty
        [.put "aa" "A" 0, .take "aa" 1, .take "aa" 2] "aa" ≤ 1 := by
  have h : (otmTake [("aa", (⟨"A", 0⟩ : OtmEntry))] "aa" 5).1 = .ok "A" := by
    decide
  have main := otm_take_at_most_once [("aa", ⟨"A", 0⟩)] "aa" 5 "A" h
  refine ⟨h, main.1, ?_, ?_⟩
  · exact main.2.1 [.take "aa" 6, .sweep 7, .put "bb" "B" 8] (by decide) 9
  · exact main.2.2 [.put "aa" "A" 0, .take "aa" 1, .take "aa" 2] "aa" (by decide)

/- ============================================================
   Chat invite store (`chatInviteStore`, server.js §4b and the
   /chat/invite handlers).
============================================================ -/

/-- TTL constant `CHAT_INVITE_TTL_MS = 24 * 60 * 60 * 1000` (server.js line 179). -/
def CHAT_INVITE_TTL_MS : Nat := 24 * 60 * 60 * 1000

/-- A JS timestamp: `new Date(x).getTime()` is a number or `NaN`. -/
inductive JsTime where
  | num (t : Nat)
  | nan
deriving DecidableEq, Repr

/-- JS comparison `now > t`: every comparison against `NaN` is false. -/
def jsGt (now : Nat) (t : JsTime) : Bool :=
  match t with
  | .num v => now > v
  | .nan => false

structure InviteEntry where
  publicKeyBundle : String
  expiresAt : JsTime
  createdAt : Nat
  claimed : Bool
  claimerBundle : Option String
deriving DecidableEq, Repr

abbrev InviteStore := List (String × InviteEntry)

inductive CreateResult where
  | ok
  | conflict
deriving DecidableEq, Repr

/-- Store logic of `POST /chat/invite` (server.js lines 562-574); the
    `expiresAt` argument is `some t` when the client sent a truthy value
    whose `new Date(...).getTime()` is `t`, and `none` otherwise. -/
def inviteCreate (s : InviteStore) (inviteId publicKeyBundle : String)
    (expiresAt : Option JsTime) (now : Nat) : CreateResult × InviteStore :=
  if (mapGet s inviteId).isSome then (.conflict, s)
  else
    (.ok, mapSet s inviteId
      { publicKeyBundle := publicKeyBundle
        expiresAt := match expiresAt with
          | some t => t
          | none => .num (now + CHAT_INVITE_TTL_MS)
        createdAt := now
        claimed := false
        claimerBundle := none })

structure InviteView where
  inviteId : String
  publicKeyBundle : String
  claimed : Bool
  claimerBundle : Option String
deriving DecidableEq, Repr

inductive InviteGetResult where
  | notFound
  | expired
  | ok (view : InviteView)
deriving DecidableEq, Repr

/-- Handler of `GET /chat/invite/{id}` (server.js lines 595-621): 404 if missing;
    if `Date.now() > expiresAt`, delete and 404 `expired`; else a view. -/
def inviteGet (s : InviteStore) (inviteId : String) (now : Nat) :
    InviteGetResult × InviteStore :=
  match mapGet s inviteId with
  | none => (.notFound, s)
  | some e =>
      if jsGt now e.expiresAt then (.expired, mapDelete s inviteId)
      else (.ok ⟨inviteId, e.publicKeyBundle, e.claimed, e.claimerBundle⟩, s)

inductive ClaimResult where
  | notFound
  | expired
  | alreadyClaimed
  | ok (creatorBundle : String)
deriving DecidableEq, Repr

/-- Store logic of `POST /chat/invite/{id}/claim` (server.js lines 653-685). -/
def inviteClaim (s : InviteStore) (inviteId claimerBundle : String)
    (now : Nat) : ClaimResult × InviteStore :=
  match mapGet s inviteId with
  | none => (.notFound, s)
  | some e =>
      if jsGt now e.expiresAt then (.expired, mapDelete s inviteId)
      else if e.claimed then (.alreadyClaimed, s)
      else (.ok e.publicKeyBundle,
        mapSet s inviteId
          { e with claimed := true, claimerBundle := some claimerBundle })

/-- The invite sweeper (server.js lines 182-189): it deletes entries with
    `now - entry.createdAt > CHAT_INVITE_TTL_MS` — it looks at `createdAt`,
    not `expiresAt`. -/
def inviteSweep (s : InviteStore) (now : Nat) : InviteStore :=
  s.filter (fun p => !(now - p.2.createdAt > CHAT_INVITE_TTL_MS : Bool))

inductive InviteOp where
  | create (inviteId publicKeyBundle : String) (expiresAt : Option JsTime)
      (now : Nat)
  | get (inviteId : String) (now : Nat)
  | claim (inviteId claimerBundle : String) (now : Nat)
  | sweep (now : Nat)
deriving DecidableEq, Repr

def inviteStep (s : InviteStore) : InviteOp → InviteStore
  | .create id b exp now => (inviteCreate s id b exp now).2
  | .get id now => (inviteGet s id now).2
  | .claim id b now => (inviteClaim s id b now).2
  | .sweep now => inviteSweep s now

def runInvites (s : InviteStore) (ops : List InviteOp) : InviteStore :=
  ops.foldl inviteStep s

theorem inviteGet_of_none (s : InviteStore) (id : String) (now : Nat)
    (h : mapGet s id = none) : inviteGet s id now = (.notFound, s) := by
  unfold inviteGet; rw [h]

theorem inviteGet_of_some (s : InviteStore) (id : String) (now : Nat)
    (e : InviteEntry) (h : mapGet s id = some e) :
    inviteGet s id now =
      if jsGt now e.expiresAt then (.expired, mapDelete s id)
      else (.ok ⟨id, e.publicKeyBundle, e.claimed, e.claimerBundle⟩, s) := by
  unfold inviteGet; rw [h]

theorem inviteClaim_of_none (s : InviteStore) (id b : String) (now : Nat)
    (h : mapGet s id = none) : inviteClaim s id b now = (.notFound, s) := by
  unfold inviteClaim; rw [h]

theorem inviteClaim_of_some (s : InviteStore) (id b : String) (now : Nat)
    (e : InviteEntry) (h : mapGet s id = some e) :
    inviteClaim s id b now =
      if jsGt now e.expiresAt then (.expired, mapDelete s id)
      else if e.claimed then (.alreadyClaimed, s)
      else (.ok e.publicKeyBundle,
        mapSet s id { e with claimed := true, claimerBundle := some b }) := by
  unfold inviteClaim; rw [h]

theorem wfKeys_inviteStep (s : InviteStore) (op : InviteOp) (h : WFKeys s) :
    WFKeys (inviteStep s op) := by
  cases op with
  | create id b exp now =>
      show WFKeys (inviteCreate s id b exp now).2
      unfold inviteCreate
      by_cases hp : (mapGet s id).isSome
      · rw [if_pos hp]; exact h
      · rw [if_neg hp]; exact wfKeys_set s id _ h
  | get id now =>
      show WFKeys (inviteGet s id now).2
      cases hm : mapGet s id with
      | none => rw [inviteGet_of_none s id now hm]; exact h
      | some e =>
          rw [inviteGet_of_some s id now e hm]
          by_cases hexp : jsGt now e.expiresAt = true
          · rw [if_pos hexp]; exact wfKeys_delete s id h
          · rw [if_neg hexp]; exact h
  | claim id b now =>
      show WFKeys (inviteClaim s id b now).2
      cases hm : mapGet s id with
      | none => rw [inviteClaim_of_none s id b now hm]; exact h
      | some e =>
          rw [inviteClaim_of_some s id b now e hm]
          by_cases hexp : jsGt now e.expiresAt = true
          · rw [if_pos hexp]; exact wfKeys_delete s id h
          · rw [if_neg hexp]
            by_cases hcl : e.claimed = true
            · rw [if_pos hcl]; exact h
            · rw [if_neg hcl]; exact wfKeys_set s id _ h
  | sweep now => exact wfKeys_filter s _ h

/-- Once claimed, an entry is frozen: any single operation either leaves the
    entry exactly as it is or removes it from the store. -/
theorem inviteStep_claimed_stable (s : InviteStore) (op : InviteOp)
    (id : String) (e : InviteEntry) (hwf : WFKeys s)
    (h : mapGet s id = some e) (hcl : e.claimed = true) :
    mapGet (inviteStep s op) id = some e ∨ mapGet (inviteStep s op) id = none := by
  cases op with
  | create id' b exp now =>
      show mapGet (inviteCreate s id' b exp now).2 id = some e
        ∨ mapGet (inviteCreate s id' b exp now).2 id = none
      unfold inviteCreate
      by_cases hp : (mapGet s id').isSome
      · rw [if_pos hp]; exact Or.inl h
      · rw [if_neg hp]
        have hne : id' ≠ id := by
          intro hc; subst hc; rw [h] at hp; simp at hp
        exact Or.inl ((mapGet_set_ne s id' id _ (fun hc => hne hc.symm)).trans h)
  | get id' now =>
      show mapGet (inviteGet s id' now).2 id = some e
        ∨ mapGet (inviteGet s id' now).2 id = none
      cases hm : mapGet s id' with
      | none => rw [inviteGet_of_none s id' now hm]; exact Or.inl h
      | some e2 =>
          rw [inviteGet_of_some s id' now e2 hm]
          by_cases hexp : jsGt now e2.expiresAt = true
          · rw [if_pos hexp]
            by_cases hid : id' = id
            · subst hid; exact Or.inr (mapGet_delete_self s id')
            · exact Or.inl
                ((mapGet_delete_ne s id' id (fun hc => hid hc.symm)).trans h)
          · rw [if_neg hexp]; exact Or.inl h
  | claim id' b now =>
      show mapGet (inviteClaim s id' b now).2 id = some e
        ∨ mapGet (inviteClaim s id' b now).2 id = none
      cases hm : mapGet s id' with
      | none => rw [inviteClaim_of_none s id' b now hm]; exact Or.inl h
      | some e2 =>
          rw [inviteClaim_of_some s id' b now e2 hm]
          by_cases hexp : jsGt now e2.expiresAt = true
          · rw [if_pos hexp]
            by_cases hid : id' = id
            · subst hid; exact Or.inr (mapGet_delete_self s id')
            · exact Or.inl
                ((mapGet_delete_ne s id' id (fun hc => hid hc.symm)).trans h)
          · rw [if_neg hexp]
            by_cases hcl2 : e2.claimed = true
            · rw [if_pos hcl2]; exact Or.inl h
            · rw [if_neg hcl2]
              by_cases hid : id' = id
              · subst hid
                rw [h] at hm
                have he2 : e = e2 := Option.some.inj hm
                exact absurd (he2 ▸ hcl) hcl2
              · exact Or.inl
                  ((mapGet_set_ne s id' id _ (fun hc => hid hc.symm)).trans h)
  | sweep now =>
      show mapGet (inviteSweep s now) id = some e
        ∨ mapGet (inviteSweep s now) id = none
      by_cases hage : now - e.createdAt > CHAT_INVITE_TTL_MS
      · exact Or.inr (mapGet_filter_dropped s id e _ hwf h (by simp [hage]))
      · exact Or.inl (mapGet_filter_kept s id e _ h (by simp [hage]))

/-- Does this operation create an entry under `id`? -/
def isCreateOf (op : InviteOp) (id : String) : Bool :=
  match op with
  | .create id' _ _ _ => id' = id
  | _ => false

/-- No step other than a `create` of `id` can (re)create an entry for `id`. -/
theorem inviteStep_absent (s : InviteStore) (op : InviteOp) (id : String)
    (habs : mapGet s id = none) (hnc : isCreateOf op id = false) :
    mapGet (inviteStep s op) id = none := by
  cases op with
  | create id' b exp now =>
      have hne : id' ≠ id := by simpa [isCreateOf] using hnc
      show mapGet (inviteCreate s id' b exp now).2 id = none
      unfold inviteCreate
      by_cases hp : (mapGet s id').isSome
      · rw [if_pos hp]; exact habs
      · rw [if_neg hp]
        exact (mapGet_set_ne s id' id _ (fun hc => hne hc.symm)).trans habs
  | get id' now =>
      show mapGet (inviteGet s id' now).2 id = none
      cases hm : mapGet s id' with
      | none => rw [inviteGet_of_none s id' now hm]; exact habs
      | some e2 =>
          rw [inviteGet_of_some s id' now e2 hm]
          by_cases hexp : jsGt now e2.expiresAt = true
          · rw [if_pos hexp]
            by_cases hid : id' = id
            · subst hid; exact mapGet_delete_self s id'
            · exact (mapGet_delete_ne s id' id (fun hc => hid hc.symm)).trans habs
          · rw [if_neg hexp]; exact habs
  | claim id' b now =>
      show mapGet (inviteClaim s id' b now).2 id = none
      cases hm : mapGet s id' with
      | none => rw [inviteClaim_of_none s id' b now hm]; exact habs
      | some e2 =>
          rw [inviteClaim_of_some s id' b now e2 hm]
          by_cases hexp : jsGt now e2.expiresAt = true
          · rw [if_pos hexp]
            by_cases hid : id' = id
            · subst hid; exact mapGet_delete_self s id'
            · exact (mapGet_delete_ne s id' id (fun hc => hid hc.symm)).trans habs
          · rw [if_neg hexp]
            by_cases hcl2 : e2.claimed = true
            · rw [if_pos hcl2]; exact habs
            · rw [if_neg hcl2]
              by_cases hid : id' = id
              · subst hid; rw [habs] at hm; exact absurd hm (by simp)
              · exact
                  (mapGet_set_ne s id' id _ (fun hc => hid hc.symm)).trans habs
  | sweep now => exact mapGet_filter_none s id _ habs

/-- Trace version of `inviteStep_absent`. -/
theorem runInvites_absent (ops : List InviteOp) (s : InviteStore) (id : String)
    (habs : mapGet s id = none)
    (hnc : ∀ op ∈ ops, isCreateOf op id = false) :
    mapGet (runInvites s ops) id = none := by
  induction ops generalizing s with
  | nil => exact habs
  | cons op rest ih =>
      have h1 : mapGet (inviteStep s op) id = none :=
        inviteStep_absent s op id habs (hnc op (List.mem_cons_self op rest))
      have hrun : runInvites s (op :: rest) =
          runInvites (inviteStep s op) rest := by
        simp [runInvites]
      rw [hrun]
      exact ih (inviteStep s op) h1
        (fun o ho => hnc o (List.mem_cons_of_mem op ho))

/-- Trace version of `inviteStep_claimed_stable`: across any operations that
    do not create a fresh invite under the same id, a claimed entry is either
    still exactly the claimed entry or has been removed. -/
theorem runInvites_claimed_stable (ops : List InviteOp) (s : InviteStore)
    (id : String) (e : InviteEntry) (hwf : WFKeys s)
    (h : mapGet s id = some e) (hcl : e.claimed = true)
    (hnc : ∀ op ∈ ops, isCreateOf op id = false) :
    mapGet (runInvites s ops) id = some e
    ∨ mapGet (runInvites s ops) id = none := by
  induction ops generalizing s with
  | nil => exact Or.inl h
  | cons op rest ih =>
      have hrun : runInvites s (op :: rest) =
          runInvites (inviteStep s op) rest := by
        simp [runInvites]
      have hwf' : WFKeys (inviteStep s op) := wfKeys_inviteStep s op hwf
      have hnc' : ∀ o ∈ rest, isCreateOf o id = false :=
        fun o ho => hnc o (List.mem_cons_of_mem op ho)
      rw [hrun]
      rcases inviteStep_claimed_stable s op id e hwf h hcl with h1 | h1
      · exact ih (inviteStep s op) hwf' h1 hnc'
      · exact Or.inr (runInvites_absent rest (inviteStep s op) id h1 hnc')

/-- C2 (amended): on an existing, unexpired, unclaimed invite, a claim
    transitions `claimed` from false to true, stores the claimer's bundle and
    returns the creator's bundle; every subsequent claim made while the
    invite is unexpired returns 409 `alreadyClaimed`; `get` while unexpired
    does not change state; and across any later operations that do not
    re-create the id, the entry, as long as it is still present, is exactly
    the claimed entry (claimerBundle non-null and unmodified).  The original
    claim's "every subsequent claim returns 409" fails once `expiresAt`
    passes: the code then answers 404 and deletes the entry. -/
theorem invite_claim_once
    (s : InviteStore) (id b : String) (now : Nat) (e : InviteEntry)
    (hwf : WFKeys s)
    (hget : mapGet s id = some e)
    (hexp : jsGt now e.expiresAt = false)
    (hcl : e.claimed = false) :
    ∃ e' : InviteEntry,
      inviteClaim s id b now = (.ok e.publicKeyBundle, mapSet s id e')
      ∧ e'.claimed = true
      ∧ e'.claimerBundle = some b
      ∧ e'.publicKeyBundle = e.publicKeyBundle
      ∧ e'.expiresAt = e.expiresAt
      ∧ e'.createdAt = e.createdAt
      ∧ mapGet (inviteClaim s id b now).2 id = some e'
      ∧ (∀ now2 b2, jsGt now2 e'.expiresAt = false →
          inviteClaim (inviteClaim s id b now).2 id b2 now2 =
            (.alreadyClaimed, (inviteClaim s id b now).2))
      ∧ (∀ now2, jsGt now2 e'.expiresAt = false →
          (inviteGet (inviteClaim s id b now).2 id now2).2 =
            (inviteClaim s id b now).2)
      ∧ (∀ ops : List InviteOp, (∀ op ∈ ops, isCreateOf op id = false) →
          ∀ e2 : InviteEntry,
            mapGet (runInvites (inviteClaim s id b now).2 ops) id = some e2 →
            e2 = e') := by
  refine ⟨{ e with claimed := true, claimerBundle := some b }, ?_⟩
  have hclaim : inviteClaim s id b now =
      (.ok e.publicKeyBundle,
        mapSet s id { e with claimed := true, claimerBundle := some b }) := by
    rw [inviteClaim_of_some s id b now e hget, if_neg (by simp [hexp]),
      if_neg (by simp [hcl])]
  have hs' : mapGet (inviteClaim s id b now).2 id =
      some { e with claimed := true, claimerBundle := some b } := by
    rw [hclaim]
    exact mapGet_set_self s id _
  have hwf' : WFKeys (inviteClaim s id b now).2 := by
    rw [hclaim]
    exact wfKeys_set s id _ hwf
  refine ⟨hclaim, rfl, rfl, rfl, rfl, rfl, hs', ?_, ?_, ?_⟩
  · intro now2 b2 hexp2
    rw [inviteClaim_of_some _ id b2 now2 _ hs', if_neg (by simpa using hexp2),
      if_pos rfl]
  · intro now2 hexp2
    rw [inviteGet_of_some _ id now2 _ hs', if_neg (by simpa using hexp2)]
  · intro ops hnc e2 h2
    rcases runInvites_claimed_stable ops (inviteClaim s id b now).2 id
        { e with claimed := true, claimerBundle := some b } hwf' hs' rfl hnc
      with h3 | h3
    · rw [h3] at h2; exact (Option.some.inj h2).symm
    · rw [h3] at h2; exact absurd h2 (by simp)

/-- Concrete run of the amended C2: claim succeeds once and a second claim
    before expiry answers `alreadyClaimed`. -/
theorem invite_claim_once_witness :
    (inviteClaim [("inv1", ⟨"K1", .num 100, 0, false, none⟩)] "inv1" "K2" 5).1
      = .ok "K1"
    ∧ (inviteClaim
        (inviteClaim [("inv1", ⟨"K1", .num 100, 0, false, none⟩)]
          "inv1" "K2" 5).2 "inv1" "K3" 6).1 = .alreadyClaimed := by
  obtain ⟨e', hclaim, hcl', hcb, hpk, hexp', hcr, hget', hre, hgetop, htr⟩ :=
    invite_claim_once [("inv1", ⟨"K1", .num 100, 0, false, none⟩)]
      "inv1" "K2" 5 ⟨"K1", .num 100, 0, false, none⟩
      (by unfold WFKeys mapKeys; decide) (by decide) (by decide) (by decide)
  constructor
  · rw [hclaim]
  · rw [hre 6 "K3" (by rw [hexp']; decide)]

/-- Counterexample to C2 as stated: after a successful claim, a claim made
    once `expiresAt` has passed returns 404 `expired` (and deletes the
    entry), not 409; and a `get` at that point also mutates the store. -/
theorem invite_claim_after_expiry_counterexample :
    (inviteClaim [("inv1", ⟨"K1", .num 10, 0, false, none⟩)]
        "inv1" "K2" 0).1 = .ok "K1"
    ∧ (inviteClaim
        (inviteClaim [("inv1", ⟨"K1", .num 10, 0, false, none⟩)]
          "inv1" "K2" 0).2 "inv1" "K3" 20).1 = .expired
    ∧ (inviteClaim
        (inviteClaim [("inv1", ⟨"K1", .num 10, 0, false, none⟩)]
          "inv1" "K2" 0).2 "inv1" "K3" 20).1 ≠ .alreadyClaimed
    ∧ (inviteGet
        (inviteClaim [("inv1", ⟨"K1", .num 10, 0, false, none⟩)]
          "inv1" "K2" 0).2 "inv1" 20).2 ≠
      (inviteClaim [("inv1", ⟨"K1", .num 10, 0, false, none⟩)]
          "inv1" "K2" 0).2 := by
  decide

/-- C3 (amended): the invite sweeper keys on age, not on `expiresAt`: a
    sweep at time `now` keeps an entry iff `now - createdAt` is within the
    24 h TTL, regardless of its `expiresAt`. -/
theorem invite_sweep_by_age
    (s : InviteStore) (now : Nat) (id : String) (e : InviteEntry)
    (hwf : WFKeys s) (h : mapGet s id = some e) :
    (now - e.createdAt ≤ CHAT_INVITE_TTL_MS →
      mapGet (inviteSweep s now) id = some e)
    ∧ (now - e.createdAt > CHAT_INVITE_TTL_MS →
      mapGet (inviteSweep s now) id = none) := by
  constructor
  · intro hle
    apply mapGet_filter_kept s id e _ h
    simp only [Bool.not_eq_true']
    exact decide_eq_false (by omega)
  · intro hgt
    exact mapGet_filter_dropped s id e _ hwf h (by simp [hgt])

/-- Concrete run of the amended C3: a young entry survives a sweep, an entry
    older than 24 h does not. -/
theorem invite_sweep_by_age_witness :
    mapGet (inviteSweep [("i", ⟨"K", .num 0, 100, false, none⟩)] 200) "i"
      = some ⟨"K", .num 0, 100, false, none⟩
    ∧ mapGet (inviteSweep [("i", ⟨"K", .num 0, 100, false, none⟩)] 86400200)
        "i" = none := by
  have h := invite_sweep_by_age [("i", ⟨"K", .num 0, 100, false, none⟩)]
    200 "i" ⟨"K", .num 0, 100, false, none⟩
    (by unfold WFKeys mapKeys; decide) (by decide)
  have h2 := invite_sweep_by_age [("i", ⟨"K", .num 0, 100, false, none⟩)]
    86400200 "i" ⟨"K", .num 0, 100, false, none⟩
    (by unfold WFKeys mapKeys; decide) (by decide)
  exact ⟨h.1 (by decide), h2.2 (by decide)⟩

/-- Counterexample to C3 as stated: an invite whose client-supplied
    `expiresAt` lies far in the future is nevertheless deleted by a sweep
    running a little over 24 h after `createdAt`. -/
theorem invite_sweep_future_expiry_counterexample :
    mapGet (inviteSweep
        [("inv1", ⟨"K1", .num 1000000000000, 0, false, none⟩)] 86400001)
      "inv1" = none
    ∧ jsGt 86400001 (JsTime.num 1000000000000) = false := by
  decide

/-- C10: a truthy `expiresAt` that does not parse as a date is stored as a
    `NaN` expiry; the `Date.now() > expiresAt` comparisons in `get` and
    `claim` are then never true, so the invite is never reported expired and
    is removed only by the sweeper once more than 24 h past `createdAt`. -/
theorem invite_nan_expiry
    (s : InviteStore) (id : String) (e : InviteEntry)
    (hnan : e.expiresAt = .nan) :
    (∀ b now, mapGet s id = none →
        inviteCreate s id b (some .nan) now =
          (.ok, mapSet s id ⟨b, .nan, now, false, none⟩))
    ∧ (mapGet s id = some e →
        (∀ now2,
          inviteGet s id now2 =
            (.ok ⟨id, e.publicKeyBundle, e.claimed, e.claimerBundle⟩, s))
        ∧ (∀ now2 b, (inviteClaim s id b now2).1 ≠ .expired)
        ∧ (∀ op : InviteOp, mapGet (inviteStep s op) id = none →
            ∃ t : Nat, op = .sweep t ∧ t - e.createdAt > CHAT_INVITE_TTL_MS)
        ∧ (WFKeys s → ∀ now2, now2 - e.createdAt > CHAT_INVITE_TTL_MS →
            mapGet (inviteSweep s now2) id = none)) := by
  have hfalse : ∀ n : Nat, jsGt n e.expiresAt = false := by
    intro n; rw [hnan]; rfl
  constructor
  · intro b now habs
    unfold inviteCreate
    rw [if_neg (by simp [habs])]
  · intro h
    refine ⟨?_, ?_, ?_, ?_⟩
    · intro now2
      rw [inviteGet_of_some s id now2 e h, if_neg (by simp [hfalse now2])]
    · intro now2 b
      rw [inviteClaim_of_some s id b now2 e h, if_neg (by simp [hfalse now2])]
      by_cases hcl : e.claimed = true
      · rw [if_pos hcl]; simp
      · rw [if_neg hcl]; simp
    · intro op hnone
      cases op with
      | create id' b' exp' t =>
          exfalso
          revert hnone
          show mapGet (inviteCreate s id' b' exp' t).2 id = none → False
          unfold inviteCreate
          by_cases hp : (mapGet s id').isSome
          · rw [if_pos hp]
            intro hnone; rw [h] at hnone; exact absurd hnone (by simp)
          · rw [if_neg hp]
            by_cases hid : id' = id
            · subst hid; rw [h] at hp; simp at hp
            · intro hnone
              rw [mapGet_set_ne s id' id _ (fun hc => hid hc.symm), h]
                at hnone
              exact absurd hnone (by simp)
      | get id' t =>
          exfalso
          revert hnone
          show mapGet (inviteGet s id' t).2 id = none → False
          cases hm : mapGet s id' with
          | none =>
              rw [inviteGet_of_none s id' t hm]
              intro hnone; rw [h] at hnone; exact absurd hnone (by simp)
          | some e2 =>
              rw [inviteGet_of_some s id' t e2 hm]
              by_cases hid : id' = id
              · subst hid
                rw [h] at hm
                have he2 : e = e2 := Option.some.inj hm
                rw [if_neg (by simp [he2 ▸ hfalse t])]
                intro hnone; rw [h] at hnone; exact absurd hnone (by simp)
              · by_cases hexp2 : jsGt t e2.expiresAt = true
                · rw [if_pos hexp2]
                  intro hnone
                  rw [mapGet_delete_ne s id' id (fun hc => hid hc.symm), h]
                    at hnone
                  exact absurd hnone (by simp)
                · rw [if_neg hexp2]
                  intro hnone; rw [h] at hnone; exact absurd hnone (by simp)
      | claim id' b' t =>
          exfalso
          revert hnone
          show mapGet (inviteClaim s id' b' t).2 id = none → False
          cases hm : mapGet s id' with
          | none =>
              rw [inviteClaim_of_none s id' b' t hm]
              intro hnone; rw [h] at hnone; exact absurd hnone (by simp)
          | some e2 =>
              rw [inviteClaim_of_some s id' b' t e2 hm]
              by_cases hid : id' = id
              · subst hid
                rw [h] at hm
                have he2 : e = e2 := Option.some.inj hm
                rw [if_neg (by simp [he2 ▸ hfalse t])]
                by_cases hcl : e2.claimed = true
                · rw [if_pos hcl]
                  intro hnone; rw [h] at hnone; exact absurd hnone (by simp)
                · rw [if_neg hcl]
                  intro hnone
                  rw [mapGet_set_self s id' _] at hnone
                  exact absurd hnone (by simp)
              · by_cases hexp2 : jsGt t e2.expiresAt = true
                · rw [if_pos hexp2]
                  intro hnone
                  rw [mapGet_delete_ne s id' id (fun hc => hid hc.symm), h]
                    at hnone
                  exact absurd hnone (by simp)
                · rw [if_neg hexp2]
                  by_cases hcl : e2.claimed = true
                  · rw [if_pos hcl]
                    intro hnone; rw [h] at hnone; exact absurd hnone (by simp)
                  · rw [if_neg hcl]
                    intro hnone
                    rw [mapGet_set_ne s id' id _ (fun hc => hid hc.symm), h]
                      at hnone
                    exact absurd hnone (by simp)
      | sweep t =>
          by_cases hage : t - e.createdAt > CHAT_INVITE_TTL_MS
          · exact ⟨t, rfl, hage⟩
          · exfalso
            have hkept : mapGet (inviteSweep s t) id = some e :=
              mapGet_filter_kept s id e _ h (by simp [hage])
            have : mapGet (inviteStep s (.sweep t)) id = some e := hkept
            rw [hnone] at this
            exact absurd this (by simp)
    · intro hwf now2 hage
      exact mapGet_filter_dropped s id e _ hwf h (by simp [hage])

/-- Concrete run of C10: an invite stored with a NaN expiry is served by
    `get` arbitrarily late, never claimed-as-expired, survives a sweep at
    24 h, and is deleted by the sweep just after 24 h. -/
theorem invite_nan_expiry_witness :
    inviteCreate [] "inv1" "K1" (some .nan) 0 =
      (.ok, [("inv1", ⟨"K1", .nan, 0, false, none⟩)])
    ∧ inviteGet [("inv1", ⟨"K1", .nan, 0, false, none⟩)] "inv1" 999999999999 =
        (.ok ⟨"inv1", "K1", false, none⟩,
          [("inv1", ⟨"K1", .nan, 0, false, none⟩)])
    ∧ (inviteClaim [("inv1", ⟨"K1", .nan, 0, false, none⟩)] "inv1" "K2"
        999999999999).1 ≠ .expired
    ∧ mapGet (inviteSweep [("inv1", ⟨"K1", .nan, 0, false, none⟩)] 86400001)
        "inv1" = none := by
  have h := invite_nan_expiry [("inv1", ⟨"K1", .nan, 0, false, none⟩)]
    "inv1" ⟨"K1", .nan, 0, false, none⟩ rfl
  have h0 := invite_nan_expiry ([] : InviteStore) "inv1"
    ⟨"K1", .nan, 0, false, none⟩ rfl
  obtain ⟨hget, hclaim, honly, hsweep⟩ := h.2 (by decide)
  refine ⟨h0.1 "K1" 0 rfl, ?_, hclaim 999999999999 "K2", ?_⟩
  · rw [hget 999999999999]
  · exact hsweep (by unfold WFKeys mapKeys; decide) 86400001 (by decide)

/- ============================================================
   Chat message store (`chatMessageStore`, server.js §4c, the
   /chat/message and /chat/messages/ack handlers).
============================================================ -/

/-- One stored message.  The source field `from` is a Lean keyword and is
    called `sender` here; it already carries the `from || "unknown"`
    default applied by the handler. -/
structure ChatMsg where
  id : String
  sender : String
  payload : String
  timestamp : Nat
deriving DecidableEq, Repr

abbrev ChatStore := List (String × List ChatMsg)

/-- Live map `chatConnections`: fingerprint to the readyState of its socket. -/
abbrev ChatConns := List (String × Nat)

/-- Outcome of `POST /chat/message`: `delivered` is the 201
    `{success:true}` response, `duplicate` the 200
    `{success:true, duplicate:true}` response. -/
inductive EnqueueResult where
  | delivered
  | duplicate
deriving DecidableEq, Repr

/-- The `{type:"newMessage", ...}` frame pushed to a live recipient. -/
structure PushFrame where
  toFp : String
  id : String
  sender : String
  payload : String
deriving DecidableEq, Repr

structure EnqueueOut where
  result : EnqueueResult
  store : ChatStore
  metricIncr : Bool
  pushed : Option PushFrame
deriving DecidableEq, Repr

/-- JS `from || "unknown"`: absent or empty-string sender defaults. -/
def jsOrUnknown (fro : Option String) : String :=
  match fro with
  | some f => if f = "" then "unknown" else f
  | none => "unknown"

/-- Store logic of `POST /chat/message` (server.js lines 713-763): ensure the
    mailbox exists, drop duplicates by `messageId`, else append, count the
    metric, and push to a live open socket of the recipient. -/
def chatEnqueue (s : ChatStore) (conns : ChatConns) (toFp : String)
    (fro : Option String) (payload mid : String) (now : Nat) : EnqueueOut :=
  let s1 := if (mapGet s toFp).isSome then s else mapSet s toFp []
  let msgs := (mapGet s1 toFp).getD []
  if msgs.any (fun m => m.id == mid) then
    { result := .duplicate, store := s1, metricIncr := false, pushed := none }
  else
    let s2 := mapSet s1 toFp (msgs ++ [⟨mid, jsOrUnknown fro, payload, now⟩])
    let pushed :=
      match mapGet conns toFp with
      | some rs =>
          if rs = 1 then some ⟨toFp, mid, jsOrUnknown fro, payload⟩ else none
      | none => none
    { result := .delivered, store := s2, metricIncr := true, pushed := pushed }

/-- Store logic of `POST /chat/messages/ack` (server.js lines 810-833): filter
    out the named ids; drop the key if the mailbox becomes empty; always
    answer `{success:true}` (the `Bool`). -/
def chatAck (s : ChatStore) (fingerprint : String)
    (messageIds : List String) : ChatStore × Bool :=
  match mapGet s fingerprint with
  | none => (s, true)
  | some msgs =>
      let remaining := msgs.filter (fun m => !(messageIds.contains m.id))
      if remaining.isEmpty then (mapDelete s fingerprint, true)
      else (mapSet s fingerprint remaining, true)

/-- Duplicate branch of `chatEnqueue`: everything is left untouched. -/
theorem chatEnqueue_dup (s : ChatStore) (conns : ChatConns) (toFp : String)
    (fro : Option String) (payload mid : String) (now : Nat)
    (msgs : List ChatMsg) (hbox : mapGet s toFp = some msgs)
    (hdup : msgs.any (fun m => m.id == mid) = true) :
    chatEnqueue s conns toFp fro payload mid now =
      { result := .duplicate, store := s, metricIncr := false,
        pushed := none } := by
  unfold chatEnqueue
  simp only [hbox, Option.isSome_some, if_true, Option.getD_some, hdup]

/-- Fresh branch of `chatEnqueue`: the message is appended to the
    recipient's mailbox, the metric counts, other mailboxes are unchanged. -/
theorem chatEnqueue_fresh (s : ChatStore) (conns : ChatConns) (toFp : String)
    (fro : Option String) (payload mid : String) (now : Nat)
    (hfresh : ((mapGet s toFp).getD []).any (fun m => m.id == mid) = false) :
    (chatEnqueue s conns toFp fro payload mid now).result = .delivered
    ∧ mapGet (chatEnqueue s conns toFp fro payload mid now).store toFp =
        some ((mapGet s toFp).getD []
          ++ [⟨mid, jsOrUnknown fro, payload, now⟩])
    ∧ (chatEnqueue s conns toFp fro payload mid now).metricIncr = true
    ∧ (∀ fp', fp' ≠ toFp →
        mapGet (chatEnqueue s conns toFp fro payload mid now).store fp' =
          mapGet s fp') := by
  cases hm : mapGet s toFp with
  | some msgs =>
      rw [hm] at hfresh
      simp only [Option.getD_some] at hfresh
      unfold chatEnqueue
      simp only [hm, Option.isSome_some, if_true, Option.getD_some, hfresh,
        if_false, Bool.false_eq_true]
      refine ⟨trivial, ?_, trivial, ?_⟩
      · exact mapGet_set_self s toFp _
      · intro fp' hne
        exact mapGet_set_ne s toFp fp' _ hne
  | none =>
      unfold chatEnqueue
      simp only [hm, Option.isSome_none, if_false, Bool.false_eq_true,
        mapGet_set_self s toFp ([] : List ChatMsg), Option.getD_some,
        Option.getD_none, List.any_nil, List.nil_append]
      refine ⟨trivial, ?_, trivial, ?_⟩
      · exact mapGet_set_self (mapSet s toFp []) toFp _
      · intro fp' hne
        exact (mapGet_set_ne (mapSet s toFp []) toFp fp' _ hne).trans
          (mapGet_set_ne s toFp fp' _ hne)

/-- C4: an enqueue whose `messageId` is already present in the recipient's
    mailbox is an idempotent no-op: it answers 200
    `{success:true, duplicate:true}`, leaves the whole store (hence the
    mailbox's size and contents) unchanged, does not count
    `chat_messages_sent`, and pushes no live notification. -/
theorem chat_enqueue_duplicate_noop (s : ChatStore) (conns : ChatConns)
    (toFp : String) (fro : Option String) (payload mid : String) (now : Nat)
    (msgs : List ChatMsg) (hbox : mapGet s toFp = some msgs)
    (hdup : msgs.any (fun m => m.id == mid) = true) :
    (chatEnqueue s conns toFp fro payload mid now).result = .duplicate
    ∧ (chatEnqueue s conns toFp fro payload mid now).store = s
    ∧ (chatEnqueue s conns toFp fro payload mid now).metricIncr = false
    ∧ (chatEnqueue s conns toFp fro payload mid now).pushed = none := by
  rw [chatEnqueue_dup s conns toFp fro payload mid now msgs hbox hdup]
  exact ⟨rfl, rfl, rfl, rfl⟩

/-- Concrete run of C4: re-sending `m1` to `fpB` leaves the mailbox alone,
    does not count, and pushes nothing, even with an open live socket. -/
theorem chat_enqueue_duplicate_noop_witness :
    (chatEnqueue [("fpB", [⟨"m1", "fpA", "E1", 0⟩])] [("fpB", 1)]
        "fpB" (some "fpA") "E1again" "m1" 5).result = .duplicate
    ∧ (chatEnqueue [("fpB", [⟨"m1", "fpA", "E1", 0⟩])] [("fpB", 1)]
        "fpB" (some "fpA") "E1again" "m1" 5).store
        = [("fpB", [⟨"m1", "fpA", "E1", 0⟩])]
    ∧ (chatEnqueue [("fpB", [⟨"m1", "fpA", "E1", 0⟩])] [("fpB", 1)]
        "fpB" (some "fpA") "E1again" "m1" 5).metricIncr = false
    ∧ (chatEnqueue [("fpB", [⟨"m1", "fpA", "E1", 0⟩])] [("fpB", 1)]
        "fpB" (some "fpA") "E1again" "m1" 5).pushed = none :=
  chat_enqueue_duplicate_noop [("fpB", [⟨"m1", "fpA", "E1", 0⟩])]
    [("fpB", 1)] "fpB" (some "fpA") "E1again" "m1" 5
    [⟨"m1", "fpA", "E1", 0⟩] (by decide) (by decide)

/-- C9: deduplication is scoped per recipient.  The same `messageId` sent
    to two different fingerprints is stored in both mailboxes, both enqueues
    answering 201 `delivered`; only a repeat to the same recipient is a
    duplicate. -/
theorem chat_enqueue_per_recipient (s : ChatStore) (conns : ChatConns)
    (fpA fpB : String) (froA froB : Option String) (pA pB mid : String)
    (tA tB : Nat) (hne : fpA ≠ fpB)
    (hA : ((mapGet s fpA).getD []).any (fun m => m.id == mid) = false)
    (hB : ((mapGet s fpB).getD []).any (fun m => m.id == mid) = false) :
    (chatEnqueue s conns fpA froA pA mid tA).result = .delivered
    ∧ (chatEnqueue (chatEnqueue s conns fpA froA pA mid tA).store conns
        fpB froB pB mid tB).result = .delivered
    ∧ ((mapGet (chatEnqueue (chatEnqueue s conns fpA froA pA mid tA).store
          conns fpB froB pB mid tB).store fpA).getD []).any
        (fun m => m.id == mid) = true
    ∧ ((mapGet (chatEnqueue (chatEnqueue s conns fpA froA pA mid tA).store
          conns fpB froB pB mid tB).store fpB).getD []).any
        (fun m => m.id == mid) = true
    ∧ (chatEnqueue (chatEnqueue (chatEnqueue s conns fpA froA pA mid tA).store
          conns fpB froB pB mid tB).store conns fpA froA pA mid tA).result
        = .duplicate := by
  obtain ⟨hres1, hbox1, _, hother1⟩ :=
    chatEnqueue_fresh s conns fpA froA pA mid tA hA
  have hBbox : mapGet (chatEnqueue s conns fpA froA pA mid tA).store fpB =
      mapGet s fpB := hother1 fpB (fun hc => hne hc.symm)
  have hB' : ((mapGet (chatEnqueue s conns fpA froA pA mid tA).store
      fpB).getD []).any (fun m => m.id == mid) = false := by
    rw [hBbox]; exact hB
  obtain ⟨hres2, hbox2, _, hother2⟩ :=
    chatEnqueue_fresh (chatEnqueue s conns fpA froA pA mid tA).store conns
      fpB froB pB mid tB hB'
  have hAbox : mapGet (chatEnqueue (chatEnqueue s conns fpA froA pA mid
      tA).store conns fpB froB pB mid tB).store fpA =
      mapGet (chatEnqueue s conns fpA froA pA mid tA).store fpA :=
    hother2 fpA hne
  have hAin : ((mapGet (chatEnqueue (chatEnqueue s conns fpA froA pA mid
      tA).store conns fpB froB pB mid tB).store fpA).getD []).any
      (fun m => m.id == mid) = true := by
    rw [hAbox, hbox1]
    simp
  have hBin : ((mapGet (chatEnqueue (chatEnqueue s conns fpA froA pA mid
      tA).store conns fpB froB pB mid tB).store fpB).getD []).any
      (fun m => m.id == mid) = true := by
    rw [hbox2]
    simp
  refine ⟨hres1, hres2, hAin, hBin, ?_⟩
  have hmsgs : mapGet (chatEnqueue (chatEnqueue s conns fpA froA pA mid
      tA).store conns fpB froB pB mid tB).store fpA =
      some ((mapGet s fpA).getD []
        ++ [⟨mid, jsOrUnknown froA, pA, tA⟩]) := by
    rw [hAbox, hbox1]
  rw [chatEnqueue_dup _ conns fpA froA pA mid tA _ hmsgs (by simp)]

/-- Concrete run of C9: `m1` goes to both `fpA` and `fpB`, then repeats to
    `fpA` as a duplicate. -/
theorem chat_enqueue_per_recipient_witness :
    (chatEnqueue [] [] "fpA" (some "x") "E1" "m1" 1).result = .delivered
    ∧ (chatEnqueue (chatEnqueue [] [] "fpA" (some "x") "E1" "m1" 1).store
        [] "fpB" (some "x") "E2" "m1" 2).result = .delivered
    ∧ (chatEnqueue (chatEnqueue (chatEnqueue [] [] "fpA" (some "x") "E1"
          "m1" 1).store [] "fpB" (some "x") "E2" "m1" 2).store
        [] "fpA" (some "x") "E1" "m1" 1).result = .duplicate := by
  obtain ⟨h1, h2, _, _, h5⟩ :=
    chat_enqueue_per_recipient [] [] "fpA" "fpB" (some "x") (some "x")
      "E1" "E2" "m1" 1 2 (by decide) (by decide) (by decide)
  exact ⟨h1, h2, h5⟩

/-- C7: ack removes from the named fingerprint's mailbox exactly the
    messages whose id is listed and no others, preserving the relative order
    of the remaining messages (the filtered list is a sublist); if the
    mailbox becomes empty its key is dropped; all other mailboxes are
    untouched; and the call reports success even when the mailbox does not
    exist.  The same filter runs for the WebSocket `ack` frame
    (server.js lines 875-886). -/
theorem chat_ack_spec (s : ChatStore) (fp : String) (ids : List String) :
    (chatAck s fp ids).2 = true
    ∧ (mapGet s fp = none → (chatAck s fp ids).1 = s)
    ∧ (∀ fp', fp' ≠ fp → mapGet (chatAck s fp ids).1 fp' = mapGet s fp')
    ∧ (∀ msgs, mapGet s fp = some msgs →
        ((msgs.filter (fun m => !(ids.contains m.id)) = [] →
            mapGet (chatAck s fp ids).1 fp = none)
         ∧ (msgs.filter (fun m => !(ids.contains m.id)) ≠ [] →
            mapGet (chatAck s fp ids).1 fp =
              some (msgs.filter (fun m => !(ids.contains m.id))))
         ∧ (msgs.filter (fun m => !(ids.contains m.id))).Sublist msgs
         ∧ (∀ m ∈ msgs,
              m ∈ msgs.filter (fun m2 => !(ids.contains m2.id)) ↔
                ids.contains m.id = false))) := by
  cases hm : mapGet s fp with
  | none =>
      have hack : chatAck s fp ids = (s, true) := by
        unfold chatAck; rw [hm]
      rw [hack]
      refine ⟨rfl, fun _ => rfl, fun fp' _ => rfl, ?_⟩
      intro msgs h
      exact absurd h (by simp)
  | some msgs0 =>
      cases hrem : msgs0.filter (fun m => !(ids.contains m.id)) with
      | nil =>
          have hack : chatAck s fp ids = (mapDelete s fp, true) := by
            unfold chatAck
            rw [hm]
            simp only [hrem, List.isEmpty_nil, if_true]
          rw [hack]
          refine ⟨rfl, ?_, ?_, ?_⟩
          · intro h; exact absurd h (by simp)
          · intro fp' hne; exact mapGet_delete_ne s fp fp' hne
          · intro msgs h
            have hmv : msgs0 = msgs := Option.some.inj h
            subst hmv
            refine ⟨fun _ => mapGet_delete_self s fp, ?_, ?_, ?_⟩
            · intro hne; exact absurd hrem hne
            · exact List.filter_sublist msgs0
            · intro m hmem
              simp [List.mem_filter, hmem]
      | cons r rs =>
          have hack : chatAck s fp ids =
              (mapSet s fp (msgs0.filter (fun m => !(ids.contains m.id))),
                true) := by
            unfold chatAck
            rw [hm]
            simp only [hrem, List.isEmpty_cons, if_false,
              Bool.false_eq_true]
          rw [hack]
          refine ⟨rfl, ?_, ?_, ?_⟩
          · intro h; exact absurd h (by simp)
          · intro fp' hne; exact mapGet_set_ne s fp fp' _ hne
          · intro msgs h
            have hmv : msgs0 = msgs := Option.some.inj h
            subst hmv
            refine ⟨?_, fun _ => mapGet_set_self s fp _, ?_, ?_⟩
            · intro hnil; rw [hnil] at hrem; exact absurd hrem.symm (by simp)
            · exact List.filter_sublist msgs0
            · intro m hmem
              simp [List.mem_filter, hmem]

/-- Concrete run of C7: acking `m1` and `m3` keeps exactly `m2` in order,
    leaves `fpC` untouched, and reports success. -/
theorem chat_ack_spec_witness :
    (chatAck [("fpB", [⟨"m1", "a", "p1", 0⟩, ⟨"m2", "a", "p2", 1⟩,
        ⟨"m3", "a", "p3", 2⟩]), ("fpC", [⟨"m1", "a", "q", 0⟩])]
      "fpB" ["m1", "m3"]).2 = true
    ∧ mapGet (chatAck [("fpB", [⟨"m1", "a", "p1", 0⟩, ⟨"m2", "a", "p2", 1⟩,
        ⟨"m3", "a", "p3", 2⟩]), ("fpC", [⟨"m1", "a", "q", 0⟩])]
      "fpB" ["m1", "m3"]).1 "fpB" = some [⟨"m2", "a", "p2", 1⟩]
    ∧ mapGet (chatAck [("fpB", [⟨"m1", "a", "p1", 0⟩, ⟨"m2", "a", "p2", 1⟩,
        ⟨"m3", "a", "p3", 2⟩]), ("fpC", [⟨"m1", "a", "q", 0⟩])]
      "fpB" ["m1", "m3"]).1 "fpC" = some [⟨"m1", "a", "q", 0⟩] := by
  obtain ⟨hs, hnone, hother, hbox⟩ :=
    chat_ack_spec [("fpB", [⟨"m1", "a", "p1", 0⟩, ⟨"m2", "a", "p2", 1⟩,
        ⟨"m3", "a", "p3", 2⟩]), ("fpC", [⟨"m1", "a", "q", 0⟩])]
      "fpB" ["m1", "m3"]
  have h4 := hbox [⟨"m1", "a", "p1", 0⟩, ⟨"m2", "a", "p2", 1⟩,
      ⟨"m3", "a", "p3", 2⟩] (by decide)
  refine ⟨hs, ?_, ?_⟩
  · rw [h4.2.1 (by decide)]
    decide
  · rw [hother "fpC" (by decide)]
    decide

/- ============================================================
   WebSocket rooms (`rooms`, `burnedRooms`, server.js §6 and §8).
============================================================ -/

/-- Result of `JSON.parse` on a text frame, when it succeeds. -/
inductive Json where
  | null
  | bool (b : Bool)
  | num (n : Int)
  | str (s : String)
  | arr (elems : List Json)
  | obj (fields : List (String × Json))

/-- JS truthiness of a parsed JSON value (`parsed && ...`). -/
def jsTruthy : Json → Bool
  | .null => false
  | .bool b => b
  | .num n => n != 0
  | .str s => s != ""
  | .arr _ => true
  | .obj _ => true

/-- Value of `j.k` when it is a string, else `none`; `JSON.parse` keeps the
    last of duplicate keys. -/
def jFieldStr (j : Json) (k : String) : Option String :=
  match j with
  | .obj fields =>
      match List.lookup k fields.reverse with
      | some (.str s) => some s
      | _ => none
  | _ => none

/-- The control-frame test of the room message handler (server.js lines
    951-956): `parsed && parsed.type === "control" && parsed.action ===
    "burnRoom" && parsed.roomId === roomId`; `parsed` is `none` when
    `JSON.parse` threw. -/
def isBurn (parsed : Option Json) (roomId : String) : Bool :=
  match parsed with
  | none => false
  | some j =>
      jsTruthy j && jFieldStr j "type" == some "control"
        && jFieldStr j "action" == some "burnRoom"
        && jFieldStr j "roomId" == some roomId

structure Room where
  clients : List Nat
  timer : Bool
deriving DecidableEq, Repr

structure RoomsState where
  rooms : List (String × Room)
  burned : List String
deriving DecidableEq, Repr

inductive Frame where
  | presence (roomId : String) (count : Nat)
  | roomDestroyed (roomId : String)
  | text (s : String)
  | binary (data : List Nat)
deriving DecidableEq, Repr

/-- Observable socket effects: `send sock frame` and `close sock`. -/
inductive Event where
  | send (sock : Nat) (frame : Frame)
  | close (sock : Nat)
deriving DecidableEq, Repr

/-- Connection handshake for a room socket (server.js lines 905-921):
    burned ids are turned away with `roomDestroyed` and a close; otherwise
    the socket joins (cancelling a pending destruction timer) and presence
    is broadcast to the open members.  `rs` maps a socket to its
    `readyState`. -/
def joinRoom (st : RoomsState) (rs : Nat → Nat) (ws : Nat)
    (roomId : String) : RoomsState × List Event :=
  if st.burned.contains roomId then
    (st, [.send ws (.roomDestroyed roomId), .close ws])
  else
    let room := (mapGet st.rooms roomId).getD ⟨[], false⟩
    let clients :=
      if room.clients.contains ws then room.clients else room.clients ++ [ws]
    let st2 : RoomsState := ⟨mapSet st.rooms roomId ⟨clients, false⟩, st.burned⟩
    (st2, (clients.filter (fun c => rs c == 1)).map
      (fun c => .send c (.presence roomId clients.length)))

/-- Text-frame handler of a room socket (server.js lines 938-985). -/
def handleTextFrame (st : RoomsState) (rs : Nat → Nat) (roomId : String)
    (ws : Nat) (text : String) (parsed : Option Json) :
    RoomsState × List Event :=
  if isBurn parsed roomId then
    match mapGet st.rooms roomId with
    | some r =>
        (⟨mapDelete st.rooms roomId, roomId :: st.burned⟩,
          r.clients.flatMap (fun c =>
            (if rs c == 1 then [Event.send c (.roomDestroyed roomId)] else [])
              ++ [Event.close c]))
    | none =>
        (⟨st.rooms, roomId :: st.burned⟩,
          [.send ws (.roomDestroyed roomId), .close ws])
  else
    match mapGet st.rooms roomId with
    | none => (st, [])
    | some r =>
        (st, (r.clients.filter (fun c => !(c == ws) && rs c == 1)).map
          (fun c => .send c (.text text)))

/-- Binary-frame handler (server.js lines 926-936): forwarded opaquely to
    every other open member. -/
def handleBinaryFrame (st : RoomsState) (rs : Nat → Nat) (roomId : String)
    (ws : Nat) (data : List Nat) : RoomsState × List Event :=
  match mapGet st.rooms roomId with
  | none => (st, [])
  | some r =>
      (st, (r.clients.filter (fun c => !(c == ws) && rs c == 1)).map
        (fun c => .send c (.binary data)))

/-- Close handler of a room socket (server.js lines 987-994). -/
def closeSocket (st : RoomsState) (rs : Nat → Nat) (roomId : String)
    (ws : Nat) : RoomsState × List Event :=
  match mapGet st.rooms roomId with
  | none => (st, [])
  | some r =>
      let clients := r.clients.filter (fun c => !(c == ws))
      if clients.length = 0 then
        (⟨mapSet st.rooms roomId ⟨clients, true⟩, st.burned⟩, [])
      else
        (⟨mapSet st.rooms roomId ⟨clients, r.timer⟩, st.burned⟩,
          (clients.filter (fun c => rs c == 1)).map
            (fun c => .send c (.presence roomId clients.length)))

/-- Destruction-timer callback (server.js lines 332-335). -/
def timerFire (st : RoomsState) (roomId : String) : RoomsState :=
  match mapGet st.rooms roomId with
  | some r =>
      if r.timer then ⟨mapDelete st.rooms roomId, st.burned⟩ else st
  | none => st

inductive RoomOp where
  | join (rs : Nat → Nat) (ws : Nat) (roomId : String)
  | textMsg (rs : Nat → Nat) (roomId : String) (ws : Nat) (text : String)
      (parsed : Option Json)
  | binaryMsg (rs : Nat → Nat) (roomId : String) (ws : Nat) (data : List Nat)
  | closeWs (rs : Nat → Nat) (roomId : String) (ws : Nat)
  | fire (roomId : String)

def roomStep (st : RoomsState) : RoomOp → RoomsState
  | .join rs ws rid => (joinRoom st rs ws rid).1
  | .textMsg rs rid ws text parsed => (handleTextFrame st rs rid ws text parsed).1
  | .binaryMsg rs rid ws data => (handleBinaryFrame st rs rid ws data).1
  | .closeWs rs rid ws => (closeSocket st rs rid ws).1
  | .fire rid => timerFire st rid

def runRoomOps (st : RoomsState) (ops : List RoomOp) : RoomsState :=
  ops.foldl roomStep st

/-- The burned set only grows: no handler ever removes from it. -/
theorem roomStep_burned_mono (st : RoomsState) (op : RoomOp) (rid : String)
    (h : rid ∈ st.burned) : rid ∈ (roomStep st op).burned := by
  cases op with
  | join rs ws rid2 =>
      show rid ∈ (joinRoom st rs ws rid2).1.burned
      unfold joinRoom
      by_cases hb : st.burned.contains rid2 = true
      · rw [if_pos hb]; exact h
      · rw [if_neg hb]; exact h
  | textMsg rs rid2 ws text parsed =>
      show rid ∈ (handleTextFrame st rs rid2 ws text parsed).1.burned
      unfold handleTextFrame
      by_cases hb : isBurn parsed rid2 = true
      · rw [if_pos hb]
        cases hm : mapGet st.rooms rid2 with
        | some r => exact List.mem_cons_of_mem rid2 h
        | none => exact List.mem_cons_of_mem rid2 h
      · rw [if_neg hb]
        cases hm : mapGet st.rooms rid2 with
        | some r => exact h
        | none => exact h
  | binaryMsg rs rid2 ws data =>
      show rid ∈ (handleBinaryFrame st rs rid2 ws data).1.burned
      unfold handleBinaryFrame
      cases hm : mapGet st.rooms rid2 with
      | some r => exact h
      | none => exact h
  | closeWs rs rid2 ws =>
      show rid ∈ (closeSocket st rs rid2 ws).1.burned
      unfold closeSocket
      cases hm : mapGet st.rooms rid2 with
      | none => exact h
      | some r =>
          dsimp only
          split
          · exact h
          · exact h
  | fire rid2 =>
      show rid ∈ (timerFire st rid2).burned
      unfold timerFire
      cases hm : mapGet st.rooms rid2 with
      | none => exact h
      | some r =>
          dsimp only
          split
          · exact h
          · exact h

theorem runRoomOps_burned_mono (ops : List RoomOp) (st : RoomsState)
    (rid : String) (h : rid ∈ st.burned) :
    rid ∈ (runRoomOps st ops).burned := by
  induction ops generalizing st with
  | nil => exact h
  | cons op rest ih =>
      have : runRoomOps st (op :: rest) = runRoomOps (roomStep st op) rest := by
        simp [runRoomOps]
      rw [this]
      exact ih (roomStep st op) (roomStep_burned_mono st op rid h)

/-- C5 (amended): a burned room id turns a joining handshake away with
    `roomDestroyed` + close and no state change; the burned set is monotone
    under every operation, so this holds for the remainder of the process
    lifetime; and the burn itself marks the id burned, removes the room,
    closes every current member and sends `roomDestroyed` to every member
    whose socket is open (`readyState === 1`).  The original claim's
    "every current member receives roomDestroyed" fails for members whose
    socket is no longer open: they are closed without the frame. -/
theorem room_burn_protocol :
    (∀ (st : RoomsState) (rs : Nat → Nat) (ws : Nat) (rid : String),
        rid ∈ st.burned →
        joinRoom st rs ws rid =
          (st, [.send ws (.roomDestroyed rid), .close ws]))
    ∧ (∀ (st : RoomsState) (op : RoomOp) (rid : String),
        rid ∈ st.burned → rid ∈ (roomStep st op).burned)
    ∧ (∀ (ops : List RoomOp) (st : RoomsState) (rs : Nat → Nat) (ws : Nat)
        (rid : String), rid ∈ st.burned →
        joinRoom (runRoomOps st ops) rs ws rid =
          (runRoomOps st ops, [.send ws (.roomDestroyed rid), .close ws]))
    ∧ (∀ (st : RoomsState) (rs : Nat → Nat) (rid : String) (ws : Nat)
        (text : String) (parsed : Option Json) (r : Room),
        isBurn parsed rid = true → mapGet st.rooms rid = some r →
        rid ∈ (handleTextFrame st rs rid ws text parsed).1.burned
        ∧ mapGet (handleTextFrame st rs rid ws text parsed).1.rooms rid = none
        ∧ (∀ c ∈ r.clients,
            Event.close c ∈ (handleTextFrame st rs rid ws text parsed).2
            ∧ (rs c = 1 →
                Event.send c (.roomDestroyed rid) ∈
                  (handleTextFrame st rs rid ws text parsed).2))) := by
  have hjoin : ∀ (st : RoomsState) (rs : Nat → Nat) (ws : Nat) (rid : String),
      rid ∈ st.burned →
      joinRoom st rs ws rid =
        (st, [.send ws (.roomDestroyed rid), .close ws]) := by
    intro st rs ws rid h
    unfold joinRoom
    rw [if_pos (by simpa using h)]
  refine ⟨hjoin, fun st op rid h => roomStep_burned_mono st op rid h, ?_, ?_⟩
  · intro ops st rs ws rid h
    exact hjoin (runRoomOps st ops) rs ws rid
      (runRoomOps_burned_mono ops st rid h)
  · intro st rs rid ws text parsed r hburn hm
    unfold handleTextFrame
    rw [if_pos hburn, hm]
    dsimp only
    refine ⟨List.mem_cons_self rid st.burned, mapGet_delete_self st.rooms rid,
      ?_⟩
    intro c hc
    constructor
    · exact List.mem_flatMap.mpr ⟨c, hc, by simp⟩
    · intro h1
      exact List.mem_flatMap.mpr ⟨c, hc, by simp [h1]⟩

/-- Concrete run of the amended C5: with sockets 7 and 8 open in `r1`,
    socket 8 burns the room; both receive `roomDestroyed`, both are closed,
    the room is gone, and a later join of `r1` (socket 9) is turned away. -/
theorem room_burn_protocol_witness :
    (handleTextFrame ⟨[("r1", ⟨[7, 8], false⟩)], []⟩ (fun _ => 1) "r1" 8 "b"
        (some (.obj [("type", .str "control"), ("action", .str "burnRoom"),
          ("roomId", .str "r1")]))).1.burned = ["r1"]
    ∧ Event.send 7 (.roomDestroyed "r1") ∈
        (handleTextFrame ⟨[("r1", ⟨[7, 8], false⟩)], []⟩ (fun _ => 1) "r1" 8
          "b" (some (.obj [("type", .str "control"),
            ("action", .str "burnRoom"), ("roomId", .str "r1")]))).2
    ∧ Event.close 8 ∈
        (handleTextFrame ⟨[("r1", ⟨[7, 8], false⟩)], []⟩ (fun _ => 1) "r1" 8
          "b" (some (.obj [("type", .str "control"),
            ("action", .str "burnRoom"), ("roomId", .str "r1")]))).2
    ∧ joinRoom ⟨[], ["r1"]⟩ (fun _ => 1) 9 "r1" =
        (⟨[], ["r1"]⟩, [.send 9 (.roomDestroyed "r1"), .close 9]) := by
  obtain ⟨hj, hmono, hlife, hburn⟩ := room_burn_protocol
  obtain ⟨hb, hroom, hmem⟩ := hburn ⟨[("r1", ⟨[7, 8], false⟩)], []⟩
    (fun _ => 1) "r1" 8 "b"
    (some (.obj [("type", .str "control"), ("action", .str "burnRoom"),
      ("roomId", .str "r1")])) ⟨[7, 8], false⟩ (by decide) rfl
  refine ⟨?_, (hmem 7 (by decide)).2 rfl, (hmem 8 (by decide)).1, ?_⟩
  · decide
  · exact hj ⟨[], ["r1"]⟩ (fun _ => 1) 9 "r1" (by decide)

/-- Counterexample to C5 as stated: at burn time a member whose socket is
    not open (here socket 7, `readyState = 2`) is closed but never receives
    the `roomDestroyed` frame. -/
theorem room_burn_skips_nonopen_counterexample :
    (7 : Nat) ∈ (Room.mk [7, 8] false).clients
    ∧ Event.close 7 ∈
        (handleTextFrame ⟨[("r1", ⟨[7, 8], false⟩)], []⟩
          (fun n => if n == 7 then 2 else 1) "r1" 8 "b"
          (some (.obj [("type", .str "control"), ("action", .str "burnRoom"),
            ("roomId", .str "r1")]))).2
    ∧ Event.send 7 (.roomDestroyed "r1") ∉
        (handleTextFrame ⟨[("r1", ⟨[7, 8], false⟩)], []⟩
          (fun n => if n == 7 then 2 else 1) "r1" 8 "b"
          (some (.obj [("type", .str "control"), ("action", .str "burnRoom"),
            ("roomId", .str "r1")]))).2 := by
  decide

/-- C6: on a text frame, the burn protocol runs iff the frame parsed as
    JSON matching `{type:"control", action:"burnRoom", roomId:<this room>}`;
    in every other case — JSON parse failure and mismatching control frames
    included — the state is unchanged and the frame is forwarded verbatim as
    text exactly to the other open members of the room: never echoed to the
    sender, never closed, no one else. -/
theorem room_text_dispatch (st : RoomsState) (rs : Nat → Nat) (rid : String)
    (ws : Nat) (text : String) (parsed : Option Json) :
    (isBurn parsed rid = false →
      (handleTextFrame st rs rid ws text parsed).1 = st
      ∧ (∀ e ∈ (handleTextFrame st rs rid ws text parsed).2,
          ∃ c : Nat, e = .send c (.text text))
      ∧ (∀ c : Nat,
          Event.send c (.text text) ∈
              (handleTextFrame st rs rid ws text parsed).2 ↔
            (∃ r : Room, mapGet st.rooms rid = some r ∧ c ∈ r.clients
              ∧ c ≠ ws ∧ rs c = 1))
      ∧ (∀ f : Frame,
          Event.send ws f ∉ (handleTextFrame st rs rid ws text parsed).2)
      ∧ (∀ c : Nat,
          Event.close c ∉ (handleTextFrame st rs rid ws text parsed).2))
    ∧ (isBurn parsed rid = true →
        rid ∈ (handleTextFrame st rs rid ws text parsed).1.burned) := by
  constructor
  · intro hnb
    unfold handleTextFrame
    rw [if_neg (by simp [hnb])]
    cases hm : mapGet st.rooms rid with
    | none =>
        refine ⟨rfl, ?_, ?_, ?_, ?_⟩
        · intro e he; exact absurd he (by simp)
        · intro c
          constructor
          · intro hmem; exact absurd hmem (by simp)
          · rintro ⟨r, hr, _⟩; exact absurd hr (by simp)
        · intro f hmem; exact absurd hmem (by simp)
        · intro c hmem; exact absurd hmem (by simp)
    | some r =>
        dsimp only
        refine ⟨rfl, ?_, ?_, ?_, ?_⟩
        · intro e he
          obtain ⟨a, _, heq⟩ := List.mem_map.mp he
          exact ⟨a, heq.symm⟩
        · intro c
          constructor
          · intro hmem
            obtain ⟨a, ha, heq⟩ := List.mem_map.mp hmem
            obtain ⟨hacl, hpred⟩ := List.mem_filter.mp ha
            have hac : a = c := by injection heq
            subst hac
            simp only [Bool.and_eq_true, Bool.not_eq_true', beq_eq_false_iff_ne,
              beq_iff_eq] at hpred
            exact ⟨r, rfl, hacl, hpred.1, hpred.2⟩
          · rintro ⟨r', hr', hcl, hcw, hrs⟩
            have hrr : r = r' := Option.some.inj hr'
            subst hrr
            exact List.mem_map.mpr
              ⟨c, List.mem_filter.mpr ⟨hcl, by simp [hcw, hrs]⟩, rfl⟩
        · intro f hmem
          obtain ⟨a, ha, heq⟩ := List.mem_map.mp hmem
          obtain ⟨_, hpred⟩ := List.mem_filter.mp ha
          have haw : a = ws := by injection heq
          subst haw
          simp at hpred
        · intro c hmem
          obtain ⟨a, _, heq⟩ := List.mem_map.mp hmem
          exact absurd heq (by simp)
  · intro hb
    unfold handleTextFrame
    rw [if_pos hb]
    cases hm : mapGet st.rooms rid with
    | some r => exact List.mem_cons_self rid st.burned
    | none => exact List.mem_cons_self rid st.burned

/-- Concrete run of C6: an unparseable text frame from socket 7 in room
    `r1` is forwarded to the open other member 8, not echoed, closes no
    one, changes no state; a control frame naming a different room is also
    forwarded, and the matching control frame is recognised as a burn. -/
theorem room_text_dispatch_witness :
    (handleTextFrame ⟨[("r1", ⟨[7, 8], false⟩)], []⟩ (fun _ => 1) "r1" 7
        "hello" none).1 = ⟨[("r1", ⟨[7, 8], false⟩)], []⟩
    ∧ Event.send 8 (.text "hello") ∈
        (handleTextFrame ⟨[("r1", ⟨[7, 8], false⟩)], []⟩ (fun _ => 1) "r1" 7
          "hello" none).2
    ∧ Event.send 7 (.text "hello") ∉
        (handleTextFrame ⟨[("r1", ⟨[7, 8], false⟩)], []⟩ (fun _ => 1) "r1" 7
          "hello" none).2
    ∧ isBurn (some (.obj [("type", .str "control"),
        ("action", .str "burnRoom"), ("roomId", .str "r2")])) "r1" = false
    ∧ isBurn (some (.obj [("type", .str "control"),
        ("action", .str "burnRoom"), ("roomId", .str "r1")])) "r1" = true := by
  have h := room_text_dispatch ⟨[("r1", ⟨[7, 8], false⟩)], []⟩ (fun _ => 1)
    "r1" 7 "hello" none
  obtain ⟨hst, hshape, hiff, hecho, hclose⟩ := h.1 (by decide)
  refine ⟨hst, ?_, ?_, by decide, by decide⟩
  · exact (hiff 8).mpr ⟨⟨[7, 8], false⟩, rfl, by decide, by decide, rfl⟩
  · intro hmem
    obtain ⟨r, _, _, hne, _⟩ := (hiff 7).mp hmem
    exact hne rfl

/- ============================================================
   Rate limiters (server.js §5): three families with identical
   logic and different constants.
============================================================ -/

def RATE_WINDOW_MS : Nat := 60 * 1000
def MAX_POST_OTM_PER_WINDOW : Nat := 30
def MAX_GET_OTM_PER_WINDOW : Nat := 60
def FILE_RATE_WINDOW_MS : Nat := 60 * 1000
def MAX_POST_FILE_PER_WINDOW : Nat := 10
def MAX_GET_FILE_PER_WINDOW : Nat := 30
def CHAT_RATE_WINDOW_MS : Nat := 60 * 1000
def MAX_CHAT_INVITE_PER_WINDOW : Nat := 10
def MAX_CHAT_MESSAGE_PER_WINDOW : Nat := 60

/-- A per-ip bucket.  `countA`/`countB` are the two per-action counters of a
    family: `postCount`/`getCount`, `uploadCount`/`downloadCount`,
    `inviteCount`/`messageCount`. -/
structure RateBucket where
  windowStart : Nat
  countA : Nat
  countB : Nat
deriving DecidableEq, Repr

abbrev RateBuckets := List (String × RateBucket)

/-- Common body of `checkRateLimit`, `checkFileRateLimit` and
    `checkChatRateLimit` (server.js lines 234-254, 263-283, 292-312), which
    are identical up to constants and field names: reset (or create) the
    bucket if the window expired, increment the chosen action's counter
    unconditionally, reject iff the incremented counter exceeds the
    threshold.  The incremented bucket is stored even on rejection. -/
def checkLimit (windowMs maxA maxB : Nat) (buckets : RateBuckets)
    (ip : String) (isA : Bool) (now : Nat) : Bool × RateBuckets :=
  let b : RateBucket :=
    match mapGet buckets ip with
    | some b0 => if now - b0.windowStart > windowMs then ⟨now, 0, 0⟩ else b0
    | none => ⟨now, 0, 0⟩
  if isA then
    (decide (b.countA + 1 ≤ maxA), mapSet buckets ip ⟨b.windowStart, b.countA + 1, b.countB⟩)
  else
    (decide (b.countB + 1 ≤ maxB), mapSet buckets ip ⟨b.windowStart, b.countA, b.countB + 1⟩)

inductive OtmAction where
  | post
  | get
deriving DecidableEq, Repr

def OtmAction.isPost : OtmAction → Bool
  | .post => true
  | .get => false

/-- Function `checkRateLimit` (server.js lines 234-254); `"post-otm"` is `.post`. -/
def checkRateLimit (buckets : RateBuckets) (ip : String) (t : OtmAction)
    (now : Nat) : Bool × RateBuckets :=
  checkLimit RATE_WINDOW_MS MAX_POST_OTM_PER_WINDOW MAX_GET_OTM_PER_WINDOW
    buckets ip t.isPost now

inductive FileAction where
  | upload
  | download
deriving DecidableEq, Repr

def FileAction.isUpload : FileAction → Bool
  | .upload => true
  | .download => false

/-- Function `checkFileRateLimit` (server.js lines 263-283). -/
def checkFileRateLimit (buckets : RateBuckets) (ip : String) (t : FileAction)
    (now : Nat) : Bool × RateBuckets :=
  checkLimit FILE_RATE_WINDOW_MS MAX_POST_FILE_PER_WINDOW
    MAX_GET_FILE_PER_WINDOW buckets ip t.isUpload now

inductive ChatAction where
  | invite
  | message
deriving DecidableEq, Repr

def ChatAction.isInvite : ChatAction → Bool
  | .invite => true
  | .message => false

/-- Function `checkChatRateLimit` (server.js lines 292-312). -/
def checkChatRateLimit (buckets : RateBuckets) (ip : String) (t : ChatAction)
    (now : Nat) : Bool × RateBuckets :=
  checkLimit CHAT_RATE_WINDOW_MS MAX_CHAT_INVITE_PER_WINDOW
    MAX_CHAT_MESSAGE_PER_WINDOW buckets ip t.isInvite now

/-- Run a list of `(action, time)` requests through a limiter, collecting
    the admitted/rejected flags. -/
def runLimit (windowMs maxA maxB : Nat) (buckets : RateBuckets)
    (ip : String) : List (Bool × Nat) → List Bool × RateBuckets
  | [] => ([], buckets)
  | r :: rest =>
      let step := checkLimit windowMs maxA maxB buckets ip r.1 r.2
      let next := runLimit windowMs maxA maxB step.2 ip rest
      (step.1 :: next.1, next.2)

def runOtmRate (buckets : RateBuckets) (ip : String) :
    List (OtmAction × Nat) → List Bool × RateBuckets
  | [] => ([], buckets)
  | r :: rest =>
      let step := checkRateLimit buckets ip r.1 r.2
      let next := runOtmRate step.2 ip rest
      (step.1 :: next.1, next.2)

def runFileRate (buckets : RateBuckets) (ip : String) :
    List (FileAction × Nat) → List Bool × RateBuckets
  | [] => ([], buckets)
  | r :: rest =>
      let step := checkFileRateLimit buckets ip r.1 r.2
      let next := runFileRate step.2 ip rest
      (step.1 :: next.1, next.2)

def runChatRate (buckets : RateBuckets) (ip : String) :
    List (ChatAction × Nat) → List Bool × RateBuckets
  | [] => ([], buckets)
  | r :: rest =>
      let step := checkChatRateLimit buckets ip r.1 r.2
      let next := runChatRate step.2 ip rest
      (step.1 :: next.1, next.2)

/-- Reference flags: running per-action counts against the thresholds. -/
def expectedFlags (maxA maxB a b : Nat) : List (Bool × Nat) → List Bool
  | [] => []
  | r :: rest =>
      if r.1 then
        decide (a + 1 ≤ maxA) :: expectedFlags maxA maxB (a + 1) b rest
      else
        decide (b + 1 ≤ maxB) :: expectedFlags maxA maxB a (b + 1) rest

def countA (reqs : List (Bool × Nat)) : Nat := reqs.countP (fun r => r.1)

def countB (reqs : List (Bool × Nat)) : Nat := reqs.countP (fun r => !r.1)

theorem checkLimit_in_window_a (windowMs maxA maxB : Nat)
    (buckets : RateBuckets) (ip : String) (now t0 a b : Nat)
    (hb : mapGet buckets ip = some ⟨t0, a, b⟩)
    (hnr : ¬ now - t0 > windowMs) :
    checkLimit windowMs maxA maxB buckets ip true now =
      (decide (a + 1 ≤ maxA), mapSet buckets ip ⟨t0, a + 1, b⟩) := by
  unfold checkLimit
  rw [hb]
  dsimp only
  rw [if_neg hnr]
  simp

theorem checkLimit_in_window_b (windowMs maxA maxB : Nat)
    (buckets : RateBuckets) (ip : String) (now t0 a b : Nat)
    (hb : mapGet buckets ip = some ⟨t0, a, b⟩)
    (hnr : ¬ now - t0 > windowMs) :
    checkLimit windowMs maxA maxB buckets ip false now =
      (decide (b + 1 ≤ maxB), mapSet buckets ip ⟨t0, a, b + 1⟩) := by
  unfold checkLimit
  rw [hb]
  dsimp only
  rw [if_neg hnr]
  simp

theorem checkLimit_fresh (windowMs maxA maxB : Nat) (buckets : RateBuckets)
    (ip : String) (isA : Bool) (now : Nat)
    (hb : mapGet buckets ip = none) :
    checkLimit windowMs maxA maxB buckets ip isA now =
      (if isA then decide (1 ≤ maxA) else decide (1 ≤ maxB),
        mapSet buckets ip
          (if isA then ⟨now, 1, 0⟩ else ⟨now, 0, 1⟩)) := by
  unfold checkLimit
  rw [hb]
  cases isA <;> simp

theorem checkLimit_reset (windowMs maxA maxB : Nat) (buckets : RateBuckets)
    (ip : String) (isA : Bool) (now : Nat) (b0 : RateBucket)
    (hb : mapGet buckets ip = some b0)
    (hr : now - b0.windowStart > windowMs) :
    checkLimit windowMs maxA maxB buckets ip isA now =
      (if isA then decide (1 ≤ maxA) else decide (1 ≤ maxB),
        mapSet buckets ip
          (if isA then ⟨now, 1, 0⟩ else ⟨now, 0, 1⟩)) := by
  unfold checkLimit
  rw [hb]
  dsimp only
  rw [if_pos hr]
  cases isA <;> simp

/-- Core window characterisation: starting from a live bucket
    `⟨t0, a, b⟩`, as long as all request times stay within `t0 + windowMs`
    the window never resets, each request increments its action's counter
    whether admitted or not, and request `k` of an action is admitted iff
    its running count stays within the threshold. -/
theorem runLimit_no_reset (windowMs maxA maxB : Nat)
    (reqs : List (Bool × Nat)) (buckets : RateBuckets) (ip : String)
    (t0 a b : Nat) (hb : mapGet buckets ip = some ⟨t0, a, b⟩)
    (ht : ∀ r ∈ reqs, r.2 ≤ t0 + windowMs) :
    (runLimit windowMs maxA maxB buckets ip reqs).1 =
      expectedFlags maxA maxB a b reqs
    ∧ mapGet (runLimit windowMs maxA maxB buckets ip reqs).2 ip =
        some ⟨t0, a + countA reqs, b + countB reqs⟩ := by
  induction reqs generalizing buckets a b with
  | nil =>
      refine ⟨rfl, ?_⟩
      simpa [runLimit, countA, countB] using hb
  | cons r rest ih =>
      obtain ⟨isA, t⟩ := r
      have htle : t ≤ t0 + windowMs := ht (isA, t) (List.mem_cons_self _ _)
      have hnr : ¬ t - t0 > windowMs := by omega
      have htrest : ∀ r2 ∈ rest, r2.2 ≤ t0 + windowMs :=
        fun r2 hr2 => ht r2 (List.mem_cons_of_mem _ hr2)
      cases isA with
      | true =>
          have hstep := checkLimit_in_window_a windowMs maxA maxB buckets ip
            t t0 a b hb hnr
          have hb2 : mapGet (mapSet buckets ip ⟨t0, a + 1, b⟩) ip =
              some ⟨t0, a + 1, b⟩ := mapGet_set_self buckets ip _
          obtain ⟨ihf, ihb⟩ := ih (mapSet buckets ip ⟨t0, a + 1, b⟩)
            (a + 1) b hb2 htrest
          have hrl : runLimit windowMs maxA maxB buckets ip
              ((true, t) :: rest) =
              ((checkLimit windowMs maxA maxB buckets ip true t).1 ::
                (runLimit windowMs maxA maxB
                  (checkLimit windowMs maxA maxB buckets ip true t).2 ip
                  rest).1,
                (runLimit windowMs maxA maxB
                  (checkLimit windowMs maxA maxB buckets ip true t).2 ip
                  rest).2) := rfl
      -- flags
          constructor
          · rw [hrl, hstep]
            show decide (a + 1 ≤ maxA) ::
                (runLimit windowMs maxA maxB
                  (mapSet buckets ip ⟨t0, a + 1, b⟩) ip rest).1 =
              expectedFlags maxA maxB a b ((true, t) :: rest)
            rw [ihf]
            rfl
          · rw [hrl, hstep]
            show mapGet (runLimit windowMs maxA maxB
                (mapSet buckets ip ⟨t0, a + 1, b⟩) ip rest).2 ip =
              some ⟨t0, a + countA ((true, t) :: rest),
                b + countB ((true, t) :: rest)⟩
            rw [ihb]
            have h1 : a + countA ((true, t) :: rest) = a + 1 + countA rest := by
              simp [countA, List.countP_cons]
              omega
            have h2 : b + countB ((true, t) :: rest) = b + countB rest := by
              simp [countB, List.countP_cons]
            rw [h1, h2]
      | false =>
          have hstep := checkLimit_in_window_b windowMs maxA maxB buckets ip
            t t0 a b hb hnr
          have hb2 : mapGet (mapSet buckets ip ⟨t0, a, b + 1⟩) ip =
              some ⟨t0, a, b + 1⟩ := mapGet_set_self buckets ip _
          obtain ⟨ihf, ihb⟩ := ih (mapSet buckets ip ⟨t0, a, b + 1⟩)
            a (b + 1) hb2 htrest
          have hrl : runLimit windowMs maxA maxB buckets ip
              ((false, t) :: rest) =
              ((checkLimit windowMs maxA maxB buckets ip false t).1 ::
                (runLimit windowMs maxA maxB
                  (checkLimit windowMs maxA maxB buckets ip false t).2 ip
                  rest).1,
                (runLimit windowMs maxA maxB
                  (checkLimit windowMs maxA maxB buckets ip false t).2 ip
                  rest).2) := rfl
          constructor
          · rw [hrl, hstep]
            show decide (b + 1 ≤ maxB) ::
                (runLimit windowMs maxA maxB
                  (mapSet buckets ip ⟨t0, a, b + 1⟩) ip rest).1 =
              expectedFlags maxA maxB a b ((false, t) :: rest)
            rw [ihf]
            rfl
          · rw [hrl, hstep]
            show mapGet (runLimit windowMs maxA maxB
                (mapSet buckets ip ⟨t0, a, b + 1⟩) ip rest).2 ip =
              some ⟨t0, a + countA ((false, t) :: rest),
                b + countB ((false, t) :: rest)⟩
            rw [ihb]
            have h1 : a + countA ((false, t) :: rest) = a + countA rest := by
              simp [countA, List.countP_cons]
            have h2 : b + countB ((false, t) :: rest) = b + 1 + countB rest := by
              simp [countB, List.countP_cons]
              omega
            rw [h1, h2]

theorem runOtmRate_eq (buckets : RateBuckets) (ip : String)
    (reqs : List (OtmAction × Nat)) :
    runOtmRate buckets ip reqs =
      runLimit RATE_WINDOW_MS MAX_POST_OTM_PER_WINDOW
        MAX_GET_OTM_PER_WINDOW buckets ip
        (reqs.map (fun r => (r.1.isPost, r.2))) := by
  induction reqs generalizing buckets with
  | nil => rfl
  | cons r rest ih =>
      simp only [runOtmRate, List.map_cons, runLimit, checkRateLimit]
      rw [ih]

theorem runFileRate_eq (buckets : RateBuckets) (ip : String)
    (reqs : List (FileAction × Nat)) :
    runFileRate buckets ip reqs =
      runLimit FILE_RATE_WINDOW_MS MAX_POST_FILE_PER_WINDOW
        MAX_GET_FILE_PER_WINDOW buckets ip
        (reqs.map (fun r => (r.1.isUpload, r.2))) := by
  induction reqs generalizing buckets with
  | nil => rfl
  | cons r rest ih =>
      simp only [runFileRate, List.map_cons, runLimit, checkFileRateLimit]
      rw [ih]

theorem runChatRate_eq (buckets : RateBuckets) (ip : String)
    (reqs : List (ChatAction × Nat)) :
    runChatRate buckets ip reqs =
      runLimit CHAT_RATE_WINDOW_MS MAX_CHAT_INVITE_PER_WINDOW
        MAX_CHAT_MESSAGE_PER_WINDOW buckets ip
        (reqs.map (fun r => (r.1.isInvite, r.2))) := by
  induction reqs generalizing buckets with
  | nil => rfl
  | cons r rest ih =>
      simp only [runChatRate, List.map_cons, runLimit, checkChatRateLimit]
      rw [ih]

theorem checkLimit_fresh_allows (windowMs maxA maxB : Nat)
    (h1 : 1 ≤ maxA) (h2 : 1 ≤ maxB) (buckets : RateBuckets) (ip : String)
    (isA : Bool) (now : Nat) (hb : mapGet buckets ip = none) :
    (checkLimit windowMs maxA maxB buckets ip isA now).1 = true
    ∧ mapGet (checkLimit windowMs maxA maxB buckets ip isA now).2 ip =
        some (if isA then ⟨now, 1, 0⟩ else ⟨now, 0, 1⟩) := by
  rw [checkLimit_fresh windowMs maxA maxB buckets ip isA now hb]
  cases isA <;> simp [h1, h2, mapGet_set_self]

theorem checkLimit_reset_allows (windowMs maxA maxB : Nat)
    (h1 : 1 ≤ maxA) (h2 : 1 ≤ maxB) (buckets : RateBuckets) (ip : String)
    (isA : Bool) (now : Nat) (b0 : RateBucket)
    (hb : mapGet buckets ip = some b0)
    (hr : now - b0.windowStart > windowMs) :
    (checkLimit windowMs maxA maxB buckets ip isA now).1 = true
    ∧ mapGet (checkLimit windowMs maxA maxB buckets ip isA now).2 ip =
        some (if isA then ⟨now, 1, 0⟩ else ⟨now, 0, 1⟩) := by
  rw [checkLimit_reset windowMs maxA maxB buckets ip isA now b0 hb hr]
  cases isA <;> simp [h1, h2, mapGet_set_self]

/-- C8 (amended): per `(family, ip)` bucket there is a fixed 60-second
    window starting at the first request; the per-action counter increments
    on every request, admitted or rejected; a request is rejected with the
    429 answer iff its incremented action counter exceeds the family's
    threshold (OTM post 30 / get 60, file upload 10 / download 30, chat
    invite 10 / message 60); and a request arriving more than 60 s after the
    window start lazily resets the window to its own time and is admitted.
    The original claim's "counter increments per admitted request" fails:
    rejected requests also increment the stored counter. -/
theorem rate_limit_window_spec :
    (∀ (reqs : List (OtmAction × Nat)) (buckets : RateBuckets) (ip : String)
        (t0 a b : Nat),
        mapGet buckets ip = some ⟨t0, a, b⟩ →
        (∀ r ∈ reqs, r.2 ≤ t0 + RATE_WINDOW_MS) →
        (runOtmRate buckets ip reqs).1 =
          expectedFlags MAX_POST_OTM_PER_WINDOW MAX_GET_OTM_PER_WINDOW a b
            (reqs.map (fun r => (r.1.isPost, r.2))))
    ∧ (∀ (reqs : List (FileAction × Nat)) (buckets : RateBuckets)
        (ip : String) (t0 a b : Nat),
        mapGet buckets ip = some ⟨t0, a, b⟩ →
        (∀ r ∈ reqs, r.2 ≤ t0 + FILE_RATE_WINDOW_MS) →
        (runFileRate buckets ip reqs).1 =
          expectedFlags MAX_POST_FILE_PER_WINDOW MAX_GET_FILE_PER_WINDOW a b
            (reqs.map (fun r => (r.1.isUpload, r.2))))
    ∧ (∀ (reqs : List (ChatAction × Nat)) (buckets : RateBuckets)
        (ip : String) (t0 a b : Nat),
        mapGet buckets ip = some ⟨t0, a, b⟩ →
        (∀ r ∈ reqs, r.2 ≤ t0 + CHAT_RATE_WINDOW_MS) →
        (runChatRate buckets ip reqs).1 =
          expectedFlags MAX_CHAT_INVITE_PER_WINDOW
            MAX_CHAT_MESSAGE_PER_WINDOW a b
            (reqs.map (fun r => (r.1.isInvite, r.2))))
    ∧ (∀ (buckets : RateBuckets) (ip : String) (t : OtmAction) (now : Nat),
        mapGet buckets ip = none →
        (checkRateLimit buckets ip t now).1 = true
        ∧ mapGet (checkRateLimit buckets ip t now).2 ip =
            some (if t.isPost then ⟨now, 1, 0⟩ else ⟨now, 0, 1⟩))
    ∧ (∀ (buckets : RateBuckets) (ip : String) (t : OtmAction) (now : Nat)
        (b0 : RateBucket),
        mapGet buckets ip = some b0 →
        now - b0.windowStart > RATE_WINDOW_MS →
        (checkRateLimit buckets ip t now).1 = true
        ∧ mapGet (checkRateLimit buckets ip t now).2 ip =
            some (if t.isPost then ⟨now, 1, 0⟩ else ⟨now, 0, 1⟩))
    ∧ (∀ (buckets : RateBuckets) (ip : String) (t : FileAction) (now : Nat),
        mapGet buckets ip = none →
        (checkFileRateLimit buckets ip t now).1 = true)
    ∧ (∀ (buckets : RateBuckets) (ip : String) (t : FileAction) (now : Nat)
        (b0 : RateBucket),
        mapGet buckets ip = some b0 →
        now - b0.windowStart > FILE_RATE_WINDOW_MS →
        (checkFileRateLimit buckets ip t now).1 = true)
    ∧ (∀ (buckets : RateBuckets) (ip : String) (t : ChatAction) (now : Nat),
        mapGet buckets ip = none →
        (checkChatRateLimit buckets ip t now).1 = true)
    ∧ (∀ (buckets : RateBuckets) (ip : String) (t : ChatAction) (now : Nat)
        (b0 : RateBucket),
        mapGet buckets ip = some b0 →
        now - b0.windowStart > CHAT_RATE_WINDOW_MS →
        (checkChatRateLimit buckets ip t now).1 = true) := by
  refine ⟨?_, ?_, ?_, ?_, ?_, ?_, ?_, ?_, ?_⟩
  · intro reqs buckets ip t0 a b hb ht
    rw [runOtmRate_eq]
    refine (runLimit_no_reset _ _ _ _ buckets ip t0 a b hb ?_).1
    intro r hr
    obtain ⟨r0, hr0, heq⟩ := List.mem_map.mp hr
    exact heq ▸ ht r0 hr0
  · intro reqs buckets ip t0 a b hb ht
    rw [runFileRate_eq]
    refine (runLimit_no_reset _ _ _ _ buckets ip t0 a b hb ?_).1
    intro r hr
    obtain ⟨r0, hr0, heq⟩ := List.mem_map.mp hr
    exact heq ▸ ht r0 hr0
  · intro reqs buckets ip t0 a b hb ht
    rw [runChatRate_eq]
    refine (runLimit_no_reset _ _ _ _ buckets ip t0 a b hb ?_).1
    intro r hr
    obtain ⟨r0, hr0, heq⟩ := List.mem_map.mp hr
    exact heq ▸ ht r0 hr0
  · intro buckets ip t now hb
    exact checkLimit_fresh_allows RATE_WINDOW_MS MAX_POST_OTM_PER_WINDOW
      MAX_GET_OTM_PER_WINDOW (by decide) (by decide) buckets ip t.isPost now
      hb
  · intro buckets ip t now b0 hb hr
    exact checkLimit_reset_allows RATE_WINDOW_MS MAX_POST_OTM_PER_WINDOW
      MAX_GET_OTM_PER_WINDOW (by decide) (by decide) buckets ip t.isPost now
      b0 hb hr
  · intro buckets ip t now hb
    exact (checkLimit_fresh_allows FILE_RATE_WINDOW_MS
      MAX_POST_FILE_PER_WINDOW MAX_GET_FILE_PER_WINDOW (by decide)
      (by decide) buckets ip t.isUpload now hb).1
  · intro buckets ip t now b0 hb hr
    exact (checkLimit_reset_allows FILE_RATE_WINDOW_MS
      MAX_POST_FILE_PER_WINDOW MAX_GET_FILE_PER_WINDOW (by decide)
      (by decide) buckets ip t.isUpload now b0 hb hr).1
  · intro buckets ip t now hb
    exact (checkLimit_fresh_allows CHAT_RATE_WINDOW_MS
      MAX_CHAT_INVITE_PER_WINDOW MAX_CHAT_MESSAGE_PER_WINDOW (by decide)
      (by decide) buckets ip t.isInvite now hb).1
  · intro buckets ip t now b0 hb hr
    exact (checkLimit_reset_allows CHAT_RATE_WINDOW_MS
      MAX_CHAT_INVITE_PER_WINDOW MAX_CHAT_MESSAGE_PER_WINDOW (by decide)
      (by decide) buckets ip t.isInvite now b0 hb hr).1

/-- Concrete run of the amended C8: two requests inside a live window are
    counted per action against the thresholds, and a request 70 s after the
    window start resets the window to its own time and is admitted. -/
theorem rate_limit_window_spec_witness :
    (runOtmRate [("ip", ⟨0, 0, 0⟩)] "ip" [(.post, 5), (.get, 6)]).1 =
      expectedFlags MAX_POST_OTM_PER_WINDOW MAX_GET_OTM_PER_WINDOW 0 0
        [(true, 5), (false, 6)]
    ∧ (checkRateLimit [("ip", ⟨0, 3, 4⟩)] "ip" .post 70000).1 = true
    ∧ mapGet (checkRateLimit [("ip", ⟨0, 3, 4⟩)] "ip" .post 70000).2 "ip" =
        some ⟨70000, 1, 0⟩
    ∧ (checkChatRateLimit [] "ip" .invite 9).1 = true := by
  obtain ⟨hotm, _, _, _, hreset, _, _, hchatFresh, _⟩ := rate_limit_window_spec
  have h1 := hotm [(.post, 5), (.get, 6)] [("ip", ⟨0, 0, 0⟩)] "ip" 0 0 0
    rfl (by decide)
  have h2 := hreset [("ip", ⟨0, 3, 4⟩)] "ip" .post 70000 ⟨0, 3, 4⟩ rfl
    (by decide)
  exact ⟨h1, h2.1, h2.2, hchatFresh [] "ip" .invite 9 rfl⟩

/-- Counterexample to C8 as stated: after 31 post-OTM requests in one
    window, only 30 were admitted, yet the stored counter reads 31 — the
    counter increments on every request, not only on admitted ones. -/
theorem rate_counter_counts_rejected_counterexample :
    (runOtmRate [] "ip" (List.replicate 31 (.post, 0))).1.count true = 30
    ∧ mapGet (runOtmRate [] "ip" (List.replicate 31 (.post, 0))).2 "ip" =
        some ⟨0, 31, 0⟩
    ∧ (31 : Nat) ≠ 30 := by
  decide
